import Mathlib

/-!
Verification of the-game-bureau/sports against its specification.

This file gives a shallow embedding of the data-shaping logic of the
repository (a set of Python scripts that fetch sports data from ESPN JSON
endpoints, flatten it, normalize vocabulary fields, merge record sets and
serialize them) and proves or refutes the spec claims about it.

Modelling conventions:
- Python JSON values are modelled by the inductive type `JVal`; Python dicts
  are association lists in insertion order (a key occurs at the position of
  its first insertion, as in CPython), and all dict-producing code paths of
  the source keep keys unique, which theorems assume where needed.
- Python strings are `String`; `str.lower` is modelled for the ASCII inputs
  the scripts use, `str.strip` strips ASCII whitespace.
- Behaviour the claims do not touch (network I/O, the textual rendering
  `str(...)` of containers, Python runtime type errors on malformed shapes)
  is abstracted as noted at each definition.
-/

/-- A Python/JSON value as the scripts see one after `response.json()`:
a string, an integer, `None`, a list, or a dict (association list in
insertion order). -/
inductive JVal where
  | str (s : String)
  | num (n : Int)
  | null
  | arr (items : List JVal)
  | obj (fields : List (String × JVal))
  deriving Repr

mutual

def JVal.decEq : (a b : JVal) → Decidable (a = b)
  | .str a, .str b =>
    match String.decEq a b with
    | isTrue h => isTrue (by rw [h])
    | isFalse h => isFalse (fun hh => h (JVal.str.inj hh))
  | .num a, .num b =>
    match Int.decEq a b with
    | isTrue h => isTrue (by rw [h])
    | isFalse h => isFalse (fun hh => h (JVal.num.inj hh))
  | .null, .null => isTrue rfl
  | .arr a, .arr b =>
    match JVal.decEqList a b with
    | isTrue h => isTrue (by rw [h])
    | isFalse h => isFalse (fun hh => h (JVal.arr.inj hh))
  | .obj a, .obj b =>
    match JVal.decEqFields a b with
    | isTrue h => isTrue (by rw [h])
    | isFalse h => isFalse (fun hh => h (JVal.obj.inj hh))
  | .str _, .num _ => isFalse (by intro h; cases h)
  | .str _, .null => isFalse (by intro h; cases h)
  | .str _, .arr _ => isFalse (by intro h; cases h)
  | .str _, .obj _ => isFalse (by intro h; cases h)
  | .num _, .str _ => isFalse (by intro h; cases h)
  | .num _, .null => isFalse (by intro h; cases h)
  | .num _, .arr _ => isFalse (by intro h; cases h)
  | .num _, .obj _ => isFalse (by intro h; cases h)
  | .null, .str _ => isFalse (by intro h; cases h)
  | .null, .num _ => isFalse (by intro h; cases h)
  | .null, .arr _ => isFalse (by intro h; cases h)
  | .null, .obj _ => isFalse (by intro h; cases h)
  | .arr _, .str _ => isFalse (by intro h; cases h)
  | .arr _, .num _ => isFalse (by intro h; cases h)
  | .arr _, .null => isFalse (by intro h; cases h)
  | .arr _, .obj _ => isFalse (by intro h; cases h)
  | .obj _, .str _ => isFalse (by intro h; cases h)
  | .obj _, .num _ => isFalse (by intro h; cases h)
  | .obj _, .null => isFalse (by intro h; cases h)
  | .obj _, .arr _ => isFalse (by intro h; cases h)

def JVal.decEqList : (a b : List JVal) → Decidable (a = b)
  | [], [] => isTrue rfl
  | [], _ :: _ => isFalse (by intro h; cases h)
  | _ :: _, [] => isFalse (by intro h; cases h)
  | x :: xs, y :: ys =>
    match JVal.decEq x y, JVal.decEqList xs ys with
    | isTrue h1, isTrue h2 => isTrue (by rw [h1, h2])
    | isFalse h1, _ => isFalse (fun hh => h1 (List.cons.inj hh).1)
    | _, isFalse h2 => isFalse (fun hh => h2 (List.cons.inj hh).2)

def JVal.decEqFields : (a b : List (String × JVal)) → Decidable (a = b)
  | [], [] => isTrue rfl
  | [], _ :: _ => isFalse (by intro h; cases h)
  | _ :: _, [] => isFalse (by intro h; cases h)
  | (k1, v1) :: xs, (k2, v2) :: ys =>
    match String.decEq k1 k2, JVal.decEq v1 v2, JVal.decEqFields xs ys with
    | isTrue h1, isTrue h2, isTrue h3 => isTrue (by rw [h1, h2, h3])
    | isFalse h1, _, _ =>
      isFalse (fun hh => h1 (congrArg (fun l => (l.headD ("", JVal.null)).1) hh))
    | _, isFalse h2, _ =>
      isFalse (fun hh => h2 (congrArg (fun l => (l.headD ("", JVal.null)).2) hh))
    | _, _, isFalse h3 => isFalse (fun hh => h3 (List.cons.inj hh).2)

end

instance : DecidableEq JVal := JVal.decEq

/-- A Python dict as the scripts build them from JSON: an association list
in insertion order with unique keys. -/
abbrev PyDict := List (String × JVal)

/-- Lookup in an association list (first binding wins; a CPython dict has
at most one). -/
def assocGet {κ α : Type} [DecidableEq κ] : List (κ × α) → κ → Option α
  | [], _ => none
  | (k0, v0) :: rest, k => if k0 = k then some v0 else assocGet rest k

/-- Assignment `d[k] = v` on an association-list dict: overwrite in place
if `k` is bound, else append at the end (CPython insertion-order
semantics). -/
def assocSet {κ α : Type} [DecidableEq κ] : List (κ × α) → κ → α → List (κ × α)
  | [], k, v => [(k, v)]
  | (k0, v0) :: rest, k, v =>
    if k0 = k then (k0, v) :: rest else (k0, v0) :: assocSet rest k v

/-- Python `d.get(k)`: value of the first (only) binding of `k`, if any. -/
abbrev pyGet (d : PyDict) (k : String) : Option JVal := assocGet d k

/-- Python `d.get(k, dflt)`. -/
def pyGetD (d : PyDict) (k : String) (dflt : JVal) : JVal :=
  (pyGet d k).getD dflt

/-- Python `d[k] = v` on a dict. -/
abbrev pySet (d : PyDict) (k : String) (v : JVal) : PyDict := assocSet d k v

/-- The keys of a dict, in order. -/
def pyKeys (d : PyDict) : List String := d.map Prod.fst

/-- Python truthiness of a JSON value: empty string, zero, `None`, empty
list and empty dict are falsy. -/
def truthy : JVal → Bool
  | .str s => s ≠ ""
  | .num n => n ≠ 0
  | .null => false
  | .arr items => items ≠ []
  | .obj fields => fields ≠ []

/-- Python `str(v)` restricted to the value kinds the scripts feed it
(strings and integers; the renderings of containers and `None` are
abstracted, no claim observes them). -/
def pyStr : JVal → String
  | .str s => s
  | .num n => toString n
  | .null => "None"
  | .arr _ => "<list>"
  | .obj _ => "<dict>"

/-- Python `str.lower` (ASCII inputs, as used by the scripts). -/
def pyLower (s : String) : String := ⟨s.data.map Char.toLower⟩

/-- Leading and trailing whitespace removal on the character list. -/
def stripChars (l : List Char) : List Char :=
  (l.dropWhile Char.isWhitespace).rdropWhile Char.isWhitespace

/-- Python `str.strip`: remove leading and trailing whitespace. -/
def pyStrip (s : String) : String := ⟨stripChars s.data⟩

/-- Python `pat in s` on strings (substring containment), on char lists. -/
def isSubAux (pat : List Char) : List Char → Bool
  | [] => pat.isEmpty
  | c :: rest => pat.isPrefixOf (c :: rest) || isSubAux pat rest

/-- Python `pat in s` on strings. -/
def substrOf (pat s : String) : Bool := isSubAux pat.data s.data

/-- Python `any(term in s for term in terms)`. -/
def anyTerm (terms : List String) (s : String) : Bool :=
  terms.any (fun t => substrOf t s)

/-! ## The conference-name normalizer of src/schedule.py -/

/-- First-match scan of an ordered list of (matcher, label) rules. -/
def firstMatch (n : String) : List ((String → Bool) × String) → Option String
  | [] => none
  | (matcher, label) :: rest => if matcher n then some label else firstMatch n rest

/-- The ordered rule chain of `normalize_conference_name`
(src/schedule.py lines 143-226) as an ordered first-match rule list, one
entry per `if any(term in conf_lower ...)` test of the source, in source
order. -/
def cfbRules : List ((String → Bool) × String) :=
  [ (anyTerm ["american athletic", "american conference", "aac", "the american"],
      "American Athletic Conference"),
    (anyTerm ["southeastern", "sec"], "SEC"),
    (anyTerm ["big ten", "big 10", "b1g"], "Big Ten"),
    (anyTerm ["atlantic coast", "acc"], "ACC"),
    (anyTerm ["big 12", "big twelve"], "Big 12"),
    (anyTerm ["pac-12", "pac 12", "pacific-12", "pacific 12", "pac"], "Pac-12"),
    (anyTerm ["mountain west", "mwc"], "Mountain West"),
    (anyTerm ["conference usa", "c-usa", "cusa"], "Conference USA"),
    (anyTerm ["mid-american", "mac"], "MAC"),
    (anyTerm ["sun belt"], "Sun Belt"),
    (anyTerm ["ivy"], "Ivy League"),
    (anyTerm ["patriot"], "Patriot League"),
    (anyTerm ["colonial athletic", "caa"], "Colonial Athletic Association"),
    (anyTerm ["big sky"], "Big Sky"),
    (anyTerm ["missouri valley", "mvfc"], "Missouri Valley Football Conference"),
    (anyTerm ["southland"], "Southland Conference"),
    (anyTerm ["ohio valley", "ovc"], "Ohio Valley Conference"),
    (anyTerm ["southern conference", "socon"], "Southern Conference"),
    (anyTerm ["big south"], "Big South Conference"),
    (anyTerm ["northeast conference", "nec"], "Northeast Conference"),
    (fun n => substrOf "pioneer football" n || (pyStrip n == "pioneer"),
      "Pioneer Football League"),
    (anyTerm ["meac"], "MEAC"),
    (anyTerm ["swac"], "SWAC"),
    (anyTerm ["united athletic", "uac"], "United Athletic Conference"),
    (anyTerm ["independent"], "Independent") ]

/-- The rule chain applied to the lowercased input; `original` is returned
when no rule matches. -/
def cfbNormCore (conf_lower original : String) : String :=
  match firstMatch conf_lower cfbRules with
  | some label => label
  | none => original

/-- `normalize_conference_name` of src/schedule.py (lines 136-226): maps a
raw conference label to a canonical one via an ordered first-match rule
list, returning the original label when no rule matches. -/
def normalize_conference_name (conf_name : String) : String :=
  if conf_name = "" ∨
      pyStrip (pyLower conf_name) ∈
        ["independent", "independents", "fbs independents", "fcs independents"] then
    "Independent"
  else cfbNormCore (pyLower conf_name) conf_name

/-- Every canonical label the rule list of `normalize_conference_name` can
produce. -/
def cfbCanonLabels : List String :=
  ["Independent", "American Athletic Conference", "SEC", "Big Ten", "ACC", "Big 12",
   "Pac-12", "Mountain West", "Conference USA", "MAC", "Sun Belt", "Ivy League",
   "Patriot League", "Colonial Athletic Association", "Big Sky",
   "Missouri Valley Football Conference", "Southland Conference",
   "Ohio Valley Conference", "Southern Conference", "Big South Conference",
   "Northeast Conference", "Pioneer Football League", "MEAC", "SWAC",
   "United Athletic Conference"]

/-! ## The conference-name normalizer of src/archive/schedule.py -/

/-- The ordered rule list of `normalize_conf` (src/archive/schedule.py
lines 42-66): pattern sets paired with their canonical label. -/
def archConfMapping : List (List String × String) :=
  [ (["southeastern", "sec"], "SEC"),
    (["big ten", "big 10", "b1g"], "Big Ten"),
    (["atlantic coast", "acc"], "ACC"),
    (["big 12", "big twelve"], "Big 12"),
    (["pac-12", "pac 12", "pacific-12", "pacific 12"], "Pac-12"),
    (["american athletic", "aac", "the american", "american conference"],
      "American Athletic Conference"),
    (["mountain west", "mwc"], "Mountain West"),
    (["conference usa", "c-usa", "cusa"], "Conference USA"),
    (["mid-american", "mac"], "MAC"),
    (["sun belt"], "Sun Belt"),
    (["ivy"], "Ivy League"),
    (["patriot"], "Patriot League"),
    (["colonial athletic", "caa"], "Colonial Athletic Association"),
    (["big sky"], "Big Sky"),
    (["missouri valley", "mvfc"], "Missouri Valley Football Conference"),
    (["southland"], "Southland Conference"),
    (["ohio valley", "ovc"], "Ohio Valley Conference"),
    (["southern conference", "socon"], "Southern Conference"),
    (["big south"], "Big South Conference"),
    (["northeast", "nec"], "Northeast Conference"),
    (["pioneer football", "pioneer"], "Pioneer Football League"),
    (["meac"], "MEAC"),
    (["swac"], "SWAC"),
    (["united athletic", "uac"], "United Athletic Conference"),
    (["independent", "independents", "fbs independents", "fcs independents"],
      "Independent") ]

/-- First-match scan of the archive mapping against the prepared label. -/
def archScan (n : String) : List (List String × String) → Option String
  | [] => none
  | (keys, label) :: rest => if anyTerm keys n then some label else archScan n rest

/-- `normalize_conf` of src/archive/schedule.py (lines 34-71): empty labels
map to "Independent", otherwise the first mapping rule matching the
lowercased stripped label wins, and an unmatched label is returned
stripped. -/
def normalize_conf (name : String) : String :=
  if name = "" then "Independent"
  else
    match archScan (pyLower (pyStrip name)) archConfMapping with
    | some label => label
    | none => pyStrip name

/-! ## Helper lemmas for the normalizer claims -/

theorem dropWhile_stripChars (l : List Char) :
    (stripChars l).dropWhile Char.isWhitespace = stripChars l := by
  unfold stripChars
  rcases hX : (l.dropWhile Char.isWhitespace).rdropWhile Char.isWhitespace with _ | ⟨c, t⟩
  · simp
  · have hpre := List.rdropWhile_prefix Char.isWhitespace (l.dropWhile Char.isWhitespace)
    rw [hX] at hpre
    obtain ⟨r, hr⟩ := hpre
    have hd : l.dropWhile Char.isWhitespace = c :: (t ++ r) := by
      rw [← hr]
      simp
    have hc : Char.isWhitespace c = false := by
      have h0 := List.head?_dropWhile_not Char.isWhitespace l
      rw [hd] at h0
      simpa using h0
    simp [List.dropWhile_cons, hc]

theorem stripChars_stripChars (l : List Char) :
    stripChars (stripChars l) = stripChars l := by
  have h1 : stripChars (stripChars l) =
      ((stripChars l).dropWhile Char.isWhitespace).rdropWhile Char.isWhitespace := rfl
  rw [h1, dropWhile_stripChars]
  unfold stripChars
  exact List.rdropWhile_idempotent _ _

theorem pyStrip_pyStrip (s : String) : pyStrip (pyStrip s) = pyStrip s := by
  show String.mk (stripChars (stripChars s.data)) = String.mk (stripChars s.data)
  rw [stripChars_stripChars]

/-- A first-match scan result is one of the rule labels. -/
theorem firstMatch_mem (n : String) (rules : List ((String → Bool) × String)) (lab : String)
    (h : firstMatch n rules = some lab) : lab ∈ rules.map Prod.snd := by
  induction rules with
  | nil => simp [firstMatch] at h
  | cons kv rest ih =>
    obtain ⟨matcher, label⟩ := kv
    unfold firstMatch at h
    by_cases hk : matcher n
    · rw [if_pos hk] at h
      simp only [Option.some.injEq] at h
      simp [h]
    · rw [if_neg hk] at h
      simp [ih h]

/-- The labels of the main rule list all lie in the canonical list. -/
theorem cfbRules_canon : ∀ c ∈ cfbRules.map Prod.snd, c ∈ cfbCanonLabels := by
  intro c hc
  simp only [cfbRules, List.map_cons, List.map_nil] at hc
  fin_cases hc <;> decide

/-- Outcome analysis: `normalize_conference_name` returns its input or a
canonical label. -/
theorem cfbNorm_out (L : String) :
    normalize_conference_name L = L ∨ normalize_conference_name L ∈ cfbCanonLabels := by
  unfold normalize_conference_name
  by_cases h0 : L = "" ∨
      pyStrip (pyLower L) ∈
        ["independent", "independents", "fbs independents", "fcs independents"]
  · rw [if_pos h0]
    right
    decide
  · rw [if_neg h0]
    unfold cfbNormCore
    rcases hscan : firstMatch (pyLower L) cfbRules with _ | lab
    · left; rfl
    · right
      exact cfbRules_canon lab (firstMatch_mem _ _ _ hscan)

/-- Every canonical label of the src/schedule.py rule list is a fixed
point of `normalize_conference_name`. -/
theorem cfbCanon_fixed : ∀ c ∈ cfbCanonLabels, normalize_conference_name c = c := by
  decide

/-- A scan result is one of the mapping labels. -/
theorem archScan_mem (n : String) (m : List (List String × String)) (lab : String)
    (h : archScan n m = some lab) : lab ∈ m.map Prod.snd := by
  induction m with
  | nil => simp [archScan] at h
  | cons kv rest ih =>
    obtain ⟨keys, label⟩ := kv
    unfold archScan at h
    by_cases hk : anyTerm keys n
    · rw [if_pos hk] at h
      simp only [Option.some.injEq] at h
      simp [h]
    · rw [if_neg hk] at h
      simp [ih h]

/-- Outcome analysis for `normalize_conf`: the empty label, a matched rule
label, or the stripped input. -/
theorem archNorm_cases (L : String) :
    (L = "" ∧ normalize_conf L = "Independent") ∨
    (∃ lab, archScan (pyLower (pyStrip L)) archConfMapping = some lab ∧
      normalize_conf L = lab) ∨
    (archScan (pyLower (pyStrip L)) archConfMapping = none ∧
      normalize_conf L = pyStrip L) := by
  unfold normalize_conf
  by_cases hL : L = ""
  · left
    exact ⟨hL, by rw [if_pos hL]⟩
  · rw [if_neg hL]
    rcases hscan : archScan (pyLower (pyStrip L)) archConfMapping with _ | lab
    · right; right
      exact ⟨rfl, rfl⟩
    · right; left
      exact ⟨lab, rfl, rfl⟩

/-- Every canonical label of the archive rule list is a fixed point of
`normalize_conf`. -/
theorem archCanon_fixed : ∀ c ∈ cfbCanonLabels, normalize_conf c = c := by
  decide

/-- The labels of the archive mapping all lie in the canonical list. -/
theorem archMapping_canon : ∀ c ∈ archConfMapping.map Prod.snd, c ∈ cfbCanonLabels := by
  decide

/-- Claim C1 (counterexample): the archived normalizer `normalize_conf`
(src/archive/schedule.py) is not idempotent — a whitespace-only label is
mapped to the empty string, which a second application maps to
"Independent". -/
theorem C1_archive_not_idempotent :
    normalize_conf (normalize_conf " ") ≠ normalize_conf " " := by decide

/-- Claim C1 (amended): the active normalizer `normalize_conference_name`
of src/schedule.py is idempotent on all labels and fixes every canonical
label its rule list can produce; the archived `normalize_conf` is
idempotent on every label whose stripped form is non-empty (it fails only
on whitespace-only labels). -/
theorem C1_normalizer_idempotent :
    (∀ L, normalize_conference_name (normalize_conference_name L) =
      normalize_conference_name L) ∧
    (∀ c ∈ cfbCanonLabels, normalize_conference_name c = c) ∧
    (∀ L, pyStrip L ≠ "" → normalize_conf (normalize_conf L) = normalize_conf L) := by
  refine ⟨fun L => ?_, cfbCanon_fixed, fun L hL => ?_⟩
  · rcases cfbNorm_out L with h | h
    · rw [h, h]
    · exact cfbCanon_fixed _ h
  · rcases archNorm_cases L with ⟨hL0, _⟩ | ⟨lab, hscan, hout⟩ | ⟨hscan, hout⟩
    · exact absurd (by rw [hL0]; decide) hL
    · rw [hout]
      exact archCanon_fixed lab (archMapping_canon lab (archScan_mem _ _ _ hscan))
    · rw [hout]
      unfold normalize_conf
      rw [if_neg hL, pyStrip_pyStrip, hscan]

/-- Claim C1 (witness): concrete instances of the idempotence statements,
with the hypotheses discharged at "Big South". -/
theorem C1_normalizer_idempotent_witness :
    normalize_conference_name (normalize_conference_name "Southeastern Conference") =
      normalize_conference_name "Southeastern Conference" ∧
    normalize_conference_name "SEC" = "SEC" ∧
    normalize_conf (normalize_conf "Big South") = normalize_conf "Big South" :=
  ⟨C1_normalizer_idempotent.1 "Southeastern Conference",
   C1_normalizer_idempotent.2.1 "SEC" (by decide),
   C1_normalizer_idempotent.2.2 "Big South" (by decide)⟩

/-- Claim C6: both normalizers map "American Athletic Conference" to the
canonical American-conference label, because the American-conference rule
precedes every later rule in the ordered rule list. -/
theorem C6_american_precedence :
    normalize_conference_name "American Athletic Conference" =
      "American Athletic Conference" ∧
    normalize_conf "American Athletic Conference" = "American Athletic Conference" :=
  ⟨by decide, by decide⟩

/-! ## Week estimation from the game date (src/src/db/2025_nfl_schedule_espn.py) -/

/-- Days since the civil epoch 1970-01-01 for a proleptic Gregorian date
(the standard days-from-civil algorithm); models the day difference that
Python `datetime` subtraction yields for the dates the scraper handles. -/
def daysFromCivil (y m d : Int) : Int :=
  let yy := if m ≤ 2 then y - 1 else y
  let era := Int.fdiv yy 400
  let yoe := yy - era * 400
  let mp := if m > 2 then m - 3 else m + 9
  let doy := (153 * mp + 2) / 5 + d - 1
  let doe := yoe * 365 + yoe / 4 - yoe / 100 + doy
  era * 146097 + doe - 719468

/-- Core of `estimate_week_from_date` (src/src/db/2025_nfl_schedule_espn.py
lines 505-547) on a parsed calendar date: week = days since the season
start (September 4, 2025) floor-divided by 7, plus 1; returned as a string
when in 1..18; dates past the range map to "18" in January 2026 and to a
"P"-prefixed playoff week otherwise; dates before the season start give
the empty string. -/
def estimate_week_of_date (y m d : Int) : String :=
  let days_since_start := daysFromCivil y m d - daysFromCivil 2025 9 4
  if days_since_start < 0 then ""
  else
    let week_number := Int.fdiv days_since_start 7 + 1
    if 1 ≤ week_number ∧ week_number ≤ 18 then toString week_number
    else if week_number > 18 then
      if m = 1 ∧ y = 2026 then "18"
      else "P" ++ toString (week_number - 18)
    else ""

/-- Parse the leading "YYYY-MM-DD" of an ISO date string; models the
`datetime.fromisoformat` call on the date strings the scraper receives. -/
def parseISODate (s : String) : Option (Int × Int × Int) :=
  match s.data with
  | y1 :: y2 :: y3 :: y4 :: '-' :: m1 :: m2 :: '-' :: d1 :: d2 :: _ =>
    if y1.isDigit && y2.isDigit && y3.isDigit && y4.isDigit &&
        m1.isDigit && m2.isDigit && d1.isDigit && d2.isDigit then
      some (Int.ofNat (((y1.toNat - 48) * 10 + (y2.toNat - 48)) * 100 +
              ((y3.toNat - 48) * 10 + (y4.toNat - 48))),
            Int.ofNat ((m1.toNat - 48) * 10 + (m2.toNat - 48)),
            Int.ofNat ((d1.toNat - 48) * 10 + (d2.toNat - 48)))
    else none
  | _ => none

/-- Whether `datetime.fromisoformat` yields a timezone-aware datetime for
a well-formed ISO date string: the string ends in "Z" (the source first
replaces the "Z" with "+00:00"), or its time part — after the "T"
separator — carries an explicit "+hh:mm" or "-hh:mm" offset (the minus
signs of the date part precede the "T" and do not count). -/
def isoHasTZ (s : String) : Bool :=
  s.data.getLast? == some 'Z' ||
  (let timePart := (s.data.dropWhile (fun ch => ch != 'T')).drop 1
   timePart.contains '+' || timePart.contains '-')

/-- `estimate_week_from_date` on the raw date string. A date string with a
"Z" or UTC-offset suffix parses to a timezone-aware datetime, and the
source then compares it with the naive `datetime(2025, 9, 4)`: that
comparison raises TypeError, the blanket `except` catches it, and the
function returns the empty string — so every offset-suffixed date string
yields "". A string that does not parse as a date takes the ValueError
path of the source and also yields the empty string; only offset-free
date strings reach the week computation. -/
def estimate_week_from_date (date_str : String) : String :=
  if isoHasTZ date_str then ""
  else
    match parseISODate date_str with
    | some (y, m, d) => estimate_week_of_date y m d
    | none => ""

/-- Claim C2 (counterexample): the claimed week formula does not hold of
the estimator on the date strings the API serves — which carry a "Z"
suffix — because the source compares the timezone-aware parsed date with
the naive season start, raising TypeError, which the blanket `except`
turns into the empty string: the Z-suffixed January 3, 2026 string yields
"", not "18"; only the offset-free form of the same date yields "18". -/
theorem C2_aware_date_not_estimated :
    estimate_week_from_date "2026-01-03T18:00Z" = "" ∧
    estimate_week_from_date "2026-01-03T18:00Z" ≠ "18" ∧
    estimate_week_from_date "2026-01-03" = "18" := by decide

/-- Claim C2 (amended): for an offset-free date string the estimator
computes floor((date - 2025-09-04).days / 7) + 1, returns it as a string
when it lies in 1..18, maps out-of-range January 2026 dates to "18", and
labels other out-of-range dates "P(week-18)"; the offset-free
September 6, 2025 yields "1" and the offset-free January 3, 2026 yields
"18". But every date string with a "Z" or UTC-offset suffix yields "",
because the source's comparison of the aware parsed date with the naive
season start raises TypeError, caught by the blanket `except`. -/
theorem C2_estimate_week (y m d : Int) (s : String) :
    (0 ≤ daysFromCivil y m d - daysFromCivil 2025 9 4 →
      1 ≤ Int.fdiv (daysFromCivil y m d - daysFromCivil 2025 9 4) 7 + 1 →
      Int.fdiv (daysFromCivil y m d - daysFromCivil 2025 9 4) 7 + 1 ≤ 18 →
      estimate_week_of_date y m d =
        toString (Int.fdiv (daysFromCivil y m d - daysFromCivil 2025 9 4) 7 + 1)) ∧
    (0 ≤ daysFromCivil y m d - daysFromCivil 2025 9 4 →
      Int.fdiv (daysFromCivil y m d - daysFromCivil 2025 9 4) 7 + 1 > 18 →
      m = 1 → y = 2026 → estimate_week_of_date y m d = "18") ∧
    (0 ≤ daysFromCivil y m d - daysFromCivil 2025 9 4 →
      Int.fdiv (daysFromCivil y m d - daysFromCivil 2025 9 4) 7 + 1 > 18 →
      ¬(m = 1 ∧ y = 2026) →
      estimate_week_of_date y m d =
        "P" ++ toString (Int.fdiv (daysFromCivil y m d - daysFromCivil 2025 9 4) 7 + 1 - 18)) ∧
    (isoHasTZ s = true → estimate_week_from_date s = "") ∧
    estimate_week_from_date "2025-09-06" = "1" ∧
    estimate_week_from_date "2026-01-03" = "18" := by
  refine ⟨fun h0 h1 h2 => ?_, fun h0 h2 hm hy => ?_, fun h0 h2 hmy => ?_,
    fun hz => ?_, by decide, by decide⟩
  · unfold estimate_week_of_date
    rw [if_neg (by omega), if_pos ⟨h1, h2⟩]
  · unfold estimate_week_of_date
    rw [if_neg (by omega), if_neg (by omega), if_pos (by omega), if_pos ⟨hm, hy⟩]
  · unfold estimate_week_of_date
    rw [if_neg (by omega), if_neg (by omega), if_pos (by omega), if_neg hmy]
  · simp only [estimate_week_from_date, hz, if_true]

/-- Claim C2 (witness): each implication discharged at a concrete date —
September 20, 2025 (week 3), January 10, 2026 (computed week 19, mapped
back to "18"), February 20, 2026 (playoff label), and a Z-suffixed date
string (empty estimate). -/
theorem C2_estimate_week_witness :
    estimate_week_of_date 2025 9 20 = toString
      (Int.fdiv (daysFromCivil 2025 9 20 - daysFromCivil 2025 9 4) 7 + 1) ∧
    estimate_week_of_date 2026 1 10 = "18" ∧
    estimate_week_of_date 2026 2 20 = "P" ++ toString
      (Int.fdiv (daysFromCivil 2026 2 20 - daysFromCivil 2025 9 4) 7 + 1 - 18) ∧
    estimate_week_from_date "2025-09-06T17:00Z" = "" :=
  ⟨(C2_estimate_week 2025 9 20 "").1 (by decide) (by decide) (by decide),
   (C2_estimate_week 2026 1 10 "").2.1 (by decide) (by decide) rfl rfl,
   (C2_estimate_week 2026 2 20 "").2.2.1 (by decide) (by decide) (by decide),
   (C2_estimate_week 0 0 0 "2025-09-06T17:00Z").2.2.2.1 (by decide)⟩

/-! ## Week extraction chain of process_event_data
(src/src/db/2025_nfl_schedule_espn.py lines 312-399) -/

/-- Python `v.get(k)` when `v` may be any JSON value (the scripts only
reach this on dicts; a non-dict aborts the record, modelled as absent). -/
def jGet (v : JVal) (k : String) : Option JVal :=
  match v with
  | .obj fields => pyGet fields k
  | _ => none

/-- `get_nested_value` (lines 591-599): walk nested dicts along `keys`;
a broken path or a final `None` yields the caller's default, modelled
as `none`. -/
def get_nested_value (data : JVal) (keys : List String) : Option JVal :=
  match keys with
  | [] => match data with
    | .null => none
    | v => some v
  | k :: rest => match data with
    | .obj fields =>
      match pyGet fields k with
      | some v => get_nested_value v rest
      | none => none
    | _ => none

/-- Strategy 1 of the chain (lines 319-324): the event's own
`week.number`, converted with `str` when truthy. A falsy value is left
for the next strategy to overwrite, so it is modelled as the empty
string, which the chain treats identically. -/
def weekStrategy1 (ev : PyDict) : String :=
  match get_nested_value (.obj ev) ["week", "number"] with
  | some v => if truthy v then pyStr v else ""
  | none => ""

/-- Second half of `get_week_from_competition_data` (lines 567-569): the
`seasonType.week` of the first competition. -/
def seasonTypeWeek (cf : PyDict) : String :=
  match pyGet cf "seasonType" with
  | some (.obj stf) =>
    match pyGet stf "week" with
    | some w => pyStr w
    | none => ""
  | _ => ""

/-- `get_week_from_competition_data` (lines 549-575): week data nested
under the first competition — a `week` dict contributes `str` of its
`number` (default empty string), a plain int or string is `str`-ed, and
otherwise `seasonType.week` is consulted; every failure (including the
runtime-error path on malformed shapes) returns the empty string. -/
def get_week_from_competition_data (ev : PyDict) : String :=
  match pyGet ev "competitions" with
  | some (.arr (comp :: _)) =>
    (match comp with
     | .obj cf =>
       (match pyGet cf "week" with
        | some (.obj wf) => pyStr (pyGetD wf "number" (.str ""))
        | some (.num n) => toString n
        | some (.str s) => s
        | some _ => seasonTypeWeek cf
        | none => seasonTypeWeek cf)
     | _ => "")
  | _ => ""

/-- Strategy 3 of the chain (lines 335-341): `season.week.number`. -/
def weekStrategy3 (ev : PyDict) : String :=
  match get_nested_value (.obj ev) ["season", "week", "number"] with
  | some v => if truthy v then pyStr v else ""
  | none => ""

/-- Strategy 4 of the chain (lines 343-354): the date-based estimate,
attempted only when the event has a truthy date (a non-string date takes
the exception path of the source and contributes nothing). Since
`estimate_week_from_date` returns "" for every offset-suffixed date
string (its TypeError path), this strategy succeeds only on offset-free
dates; Z-suffixed event dates fall through to the manual fallback. -/
def weekStrategy4 (ev : PyDict) : String :=
  match pyGet ev "date" with
  | some (.str s) => if s ≠ "" then estimate_week_from_date s else ""
  | _ => ""

/-- The month-based table of the final manual fallback (lines 371-391). -/
def manualMonthWeek (y m d : Int) : String :=
  if m = 9 then
    if d ≤ 10 then "1" else if d ≤ 17 then "2" else if d ≤ 24 then "3" else "4"
  else if m = 10 then toString (4 + Int.fdiv (d - 1) 7 + 1)
  else if m = 11 then toString (8 + Int.fdiv (d - 1) 7 + 1)
  else if m = 12 then toString (12 + Int.fdiv (d - 1) 7 + 1)
  else if m = 1 ∧ y = 2026 then "18"
  else ""

/-- The final manual date parse of the chain (lines 357-397), reached only
when all four strategies fail: dates containing a "T" get a month-based
week, anything else leaves the week empty. -/
def manualWeekFallback (ev : PyDict) : String :=
  match pyGet ev "date" with
  | some (.str s) =>
    if s ≠ "" ∧ substrOf "T" s then
      match parseISODate s with
      | some (y, m, d) => manualMonthWeek y m d
      | none => ""
    else ""
  | _ => ""

/-- The week-number extraction of `process_event_data`
(lines 312-399): the ordered fallback chain over the four strategies,
with the manual month-based parse as a last resort. -/
def process_event_week_number (ev : PyDict) : String :=
  let w1 := weekStrategy1 ev
  if w1 ≠ "" then w1
  else
    let w2 := get_week_from_competition_data ev
    if w2 ≠ "" then w2
    else
      let w3 := weekStrategy3 ev
      if w3 ≠ "" then w3
      else
        let w4 := weekStrategy4 ev
        if w4 ≠ "" then w4
        else manualWeekFallback ev

/-- Claim C5: the week number of an event is determined by the ordered
fallback chain — event week.number, then competition week data, then
season week.number, then the date estimate — and the chain stops at the
first strategy producing a non-empty result, never consulting later
strategies once one succeeds; when all four strategies come back empty
(in particular when the event date carries a "Z" suffix, on which the
date estimate returns ""), the manual month-based parse supplies the
result. -/
theorem C5_week_fallback_chain (ev : PyDict) :
    (weekStrategy1 ev ≠ "" → process_event_week_number ev = weekStrategy1 ev) ∧
    (weekStrategy1 ev = "" → get_week_from_competition_data ev ≠ "" →
      process_event_week_number ev = get_week_from_competition_data ev) ∧
    (weekStrategy1 ev = "" → get_week_from_competition_data ev = "" →
      weekStrategy3 ev ≠ "" → process_event_week_number ev = weekStrategy3 ev) ∧
    (weekStrategy1 ev = "" → get_week_from_competition_data ev = "" →
      weekStrategy3 ev = "" → weekStrategy4 ev ≠ "" →
      process_event_week_number ev = weekStrategy4 ev) ∧
    (weekStrategy1 ev = "" → get_week_from_competition_data ev = "" →
      weekStrategy3 ev = "" → weekStrategy4 ev = "" →
      process_event_week_number ev = manualWeekFallback ev) := by
  refine ⟨fun h1 => ?_, fun h1 h2 => ?_, fun h1 h2 h3 => ?_, fun h1 h2 h3 h4 => ?_,
    fun h1 h2 h3 h4 => ?_⟩ <;>
    simp only [process_event_week_number]
  · rw [if_pos h1]
  · rw [if_neg (fun hc => hc h1), if_pos h2]
  · rw [if_neg (fun hc => hc h1), if_neg (fun hc => hc h2), if_pos h3]
  · rw [if_neg (fun hc => hc h1), if_neg (fun hc => hc h2), if_neg (fun hc => hc h3),
      if_pos h4]
  · rw [if_neg (fun hc => hc h1), if_neg (fun hc => hc h2), if_neg (fun hc => hc h3),
      if_neg (fun hc => hc h4)]

/-- Claim C5 (witness): five concrete events, one resolved by each
strategy of the chain — the fourth by the date estimate on an offset-free
date, the fifth a Z-dated event on which the date estimate returns "" and
the manual month-based fallback supplies week "18". -/
theorem C5_week_fallback_chain_witness :
    process_event_week_number [("week", JVal.obj [("number", JVal.num 3)])] = "3" ∧
    process_event_week_number
      [("competitions", JVal.arr [JVal.obj [("week", JVal.obj [("number", JVal.num 7)])]])] =
      "7" ∧
    process_event_week_number
      [("season", JVal.obj [("week", JVal.obj [("number", JVal.num 9)])])] = "9" ∧
    process_event_week_number [("date", JVal.str "2025-09-06")] = "1" ∧
    process_event_week_number [("date", JVal.str "2026-01-03T18:00Z")] = "18" :=
  ⟨(C5_week_fallback_chain _).1 (by decide),
   ((C5_week_fallback_chain _).2.1 (by decide) (by decide)).trans (by decide),
   ((C5_week_fallback_chain _).2.2.1 (by decide) (by decide) (by decide)).trans (by decide),
   ((C5_week_fallback_chain _).2.2.2.1 (by decide) (by decide) (by decide) (by decide)).trans
     (by decide),
   ((C5_week_fallback_chain _).2.2.2.2 (by decide) (by decide) (by decide) (by decide)).trans
     (by decide)⟩

/-! ## The event flattener parse_event of src/games.py (lines 72-121) -/

/-- The flat record `parse_event` produces for one ESPN event. -/
structure ParsedGame where
  date : String
  time : String
  away : String
  home : String
  pts_away : String
  pts_home : String
  overtime : String
  espn_event_id : String
  espn_gamecast_url : String
  deriving Repr, DecidableEq

/-- Python `a or b` over JSON values: the first truthy of the two, else
the second. -/
def pyOr (a b : JVal) : JVal := if truthy a then a else b

/-- The event date string `ev.get("date", "")` (a non-string date is
rendered as by `str`, an abstraction no claim observes). -/
def eventDateIso (ev : PyDict) : String :=
  match pyGet ev "date" with
  | some (.str s) => s
  | some v => pyStr v
  | none => ""

/-- Everything after the first "T" of the ISO date:
`date_iso.split("T", 1)[1]`. -/
def afterT (s : String) : String := ⟨(s.data.dropWhile (fun ch => ch != 'T')).drop 1⟩

/-- The first competition, `(ev.get("competitions") or [{}])[0]`: missing,
falsy or empty gives the empty dict (indexing a truthy non-list raises in
Python and is abstracted to the empty dict). -/
def eventComp (ev : PyDict) : JVal :=
  match pyGet ev "competitions" with
  | some (.arr (c :: _)) => c
  | _ => .obj []

/-- The competitor list, `comp.get("competitors") or []` (iteration over a
truthy non-list is abstracted to the empty list). -/
def eventCompetitors (comp : JVal) : List JVal :=
  match jGet comp "competitors" with
  | some (.arr l) => l
  | _ => []

/-- One competitor's display name:
`(c.get("team") or {}).get("displayName") or team.get("name") or ""`. -/
def competitorName (c : JVal) : String :=
  let team := pyOr ((jGet c "team").getD .null) (.obj [])
  pyStr (pyOr ((jGet team "displayName").getD .null)
    (pyOr ((jGet team "name").getD .null) (.str "")))

/-- One competitor's score string: `str(c.get("score") or "")`. -/
def competitorScore (c : JVal) : String :=
  pyStr (pyOr ((jGet c "score").getD .null) (.str ""))

/-- The home/away fold of parse_event (lines 88-96): later competitors
with the same homeAway marker overwrite earlier ones; the state is
((home name, home score), (away name, away score)). -/
def homeAwayFold (comps : List JVal) : (String × String) × (String × String) :=
  comps.foldl
    (fun st c =>
      match jGet c "homeAway" with
      | some (.str "home") => ((competitorName c, competitorScore c), st.2)
      | some (.str "away") => (st.1, (competitorName c, competitorScore c))
      | _ => st)
    (("", ""), ("", ""))

/-- The overtime flag of parse_event (lines 98-105): "Y" when "OT" occurs
in the status short detail or the status period exceeds 4, else "". -/
def eventOvertime (comp : JVal) : String :=
  let status := pyOr ((jGet comp "status").getD .null) (.obj [])
  let typeobj := pyOr ((jGet status "type").getD .null) (.obj [])
  let sd := pyOr ((jGet typeobj "shortDetail").getD (.str ""))
    ((jGet status "shortDetail").getD (.str ""))
  let sdStr := if truthy sd then pyStr sd else ""
  let period := pyOr ((jGet status "period").getD .null) (.num 0)
  let isLate := match period with
    | .num n => n > 4
    | _ => false
  if substrOf "OT" sdStr || isLate then "Y" else ""

/-- `parse_event` of src/games.py (lines 72-121): flatten one ESPN event
into the normalized record, substituting empty strings for every absent
optional field. -/
def parse_event (ev : PyDict) : ParsedGame :=
  let eid := pyStr (pyGetD ev "id" (.str ""))
  let date_iso := eventDateIso ev
  let time_part := if substrOf "T" date_iso then afterT date_iso else ""
  let comp := eventComp ev
  let ha := homeAwayFold (eventCompetitors comp)
  { date := date_iso
    time := time_part
    away := ha.2.1
    home := ha.1.1
    pts_away := ha.2.2
    pts_home := ha.1.2
    overtime := eventOvertime comp
    espn_event_id := eid
    espn_gamecast_url :=
      if eid ≠ "" then "https://www.espn.com/nfl/game/_/gameId/" ++ eid else "" }

/-! ## Team logo and venue extraction of create_xml
(src/schedule.py lines 441-446 and 489-493) -/

/-- The logo selection of `create_xml`: the `logo` field when truthy, else
the `href` of the first entry of a truthy `logos` list, else the original
falsy value. -/
def create_xml_team_logo (team_info : PyDict) : JVal :=
  let tl := pyGetD team_info "logo" (.str "")
  if truthy tl then tl
  else
    match pyGet team_info "logos" with
    | some (.arr (l0 :: _)) =>
      pyOr ((jGet l0 "href").getD (.str "")) (.str "")
    | _ => tl

/-- The venue extraction of `create_xml`: stadium name (default "TBD"),
city and state (default "") from the competition's venue address. -/
def create_xml_venue (comp : PyDict) : String × String × String :=
  let venue := pyOr (pyGetD comp "venue" (.obj [])) (.obj [])
  let stadium := pyStr ((jGet venue "fullName").getD (.str "TBD"))
  let address := pyOr ((jGet venue "address").getD (.obj [])) (.obj [])
  let city := pyStr ((jGet address "city").getD (.str ""))
  let state := pyStr ((jGet address "state").getD (.str ""))
  (stadium, city, state)

/-- Claim C8: the extractor tolerates missing optional nested fields —
an event without a date still yields a record with empty date and time;
an event without a competitions list yields a record with empty team
names, scores and overtime flag (never a dropped record or a fault, the
extractors are total); a competition without a venue, or a venue without
an address, yields empty city and state; and a team whose `logo` field is
absent takes the `href` of the first entry of its `logos` list. -/
theorem C8_extractor_tolerance :
    (∀ ev : PyDict, pyGet ev "date" = none →
      (parse_event ev).date = "" ∧ (parse_event ev).time = "") ∧
    (∀ ev : PyDict, pyGet ev "competitions" = none →
      (parse_event ev).away = "" ∧ (parse_event ev).home = "" ∧
      (parse_event ev).pts_away = "" ∧ (parse_event ev).pts_home = "" ∧
      (parse_event ev).overtime = "") ∧
    (∀ comp : PyDict, pyGet comp "venue" = none →
      create_xml_venue comp = ("TBD", "", "")) ∧
    (∀ (comp vf : PyDict), pyGet comp "venue" = some (.obj vf) →
      pyGet vf "address" = none →
      (create_xml_venue comp).2.1 = "" ∧ (create_xml_venue comp).2.2 = "") ∧
    (∀ (team_info : PyDict) (l0 : PyDict) (rest : List JVal) (u : String),
      pyGet team_info "logo" = none →
      pyGet team_info "logos" = some (.arr (JVal.obj l0 :: rest)) →
      pyGet l0 "href" = some (.str u) →
      create_xml_team_logo team_info = .str u) := by
  refine ⟨fun ev h => ?_, fun ev h => ?_, fun comp h => ?_, fun comp vf h1 h2 => ?_,
    fun team_info l0 rest u h1 h2 h3 => ?_⟩
  · constructor <;> simp [parse_event, eventDateIso, h, substrOf, isSubAux]
  · refine ⟨?_, ?_, ?_, ?_, ?_⟩ <;>
      simp [parse_event, eventComp, h, eventCompetitors, homeAwayFold, eventOvertime,
        jGet, pyOr, truthy, pyGet, assocGet, pyStr, pyGetD, substrOf, isSubAux]
  · simp [create_xml_venue, h, pyOr, pyGetD, pyGet, assocGet, jGet, truthy, pyStr]
  · by_cases hv : vf = [] <;>
      simp [create_xml_venue, h1, h2, hv, pyOr, pyGetD, pyGet, assocGet, jGet, truthy, pyStr]
  · by_cases hu : u = "" <;>
      simp [create_xml_team_logo, h1, h2, h3, hu, pyOr, pyGetD, pyGet, assocGet, jGet, truthy, pyStr]

/-- Claim C8 (witness): the tolerance statements instantiated at concrete
records — the empty event, a venue-less competition, an address-less
venue, and a team with only a logos list. -/
theorem C8_extractor_tolerance_witness :
    (parse_event []).date = "" ∧ (parse_event []).away = "" ∧
    create_xml_venue [] = ("TBD", "", "") ∧
    (create_xml_venue [("venue", JVal.obj [("fullName", JVal.str "Soldier Field")])]).2.1 =
      "" ∧
    create_xml_team_logo
      [("logos", JVal.arr [JVal.obj [("href", JVal.str "http://x/logo.png")]])] =
      JVal.str "http://x/logo.png" :=
  ⟨(C8_extractor_tolerance.1 [] rfl).1,
   (C8_extractor_tolerance.2.1 [] rfl).1,
   C8_extractor_tolerance.2.2.1 [] rfl,
   (C8_extractor_tolerance.2.2.2.1 [("venue", JVal.obj [("fullName", JVal.str "Soldier Field")])]
     [("fullName", JVal.str "Soldier Field")] (by decide) (by decide)).1,
   C8_extractor_tolerance.2.2.2.2
     [("logos", JVal.arr [JVal.obj [("href", JVal.str "http://x/logo.png")]])]
     [("href", JVal.str "http://x/logo.png")] [] "http://x/logo.png"
     (by decide) (by decide) (by decide)⟩

/-! ## The week-by-week harvester collect_season of src/games.py
(lines 123-167) -/

/-- One collected game of `collect_season`: the parsed event plus the
`season_type` and `week` tags the harvester injects. -/
structure TaggedGame where
  game : ParsedGame
  season_type : String
  week : String
  deriving Repr, DecidableEq

/-- Tag one week's events (lines 148-152): each parsed event receives the
segment label ("REG" for seasontype 2, else "POST") and the week number
as a string. -/
def tagWeekGames (seasontype week : Nat) (evs : List PyDict) : List TaggedGame :=
  evs.map (fun ev =>
    ⟨parse_event ev, if seasontype = 2 then "REG" else "POST", toString week⟩)

/-- The `harvest` loop of `collect_season` (lines 127-161) over a season
segment whose week payloads are given by `weeks` (all requests succeed;
the HTTP-error stop of the source is outside the claims). The returned
pair instruments the run with the list of weeks actually requested,
alongside the collected games. An empty week increments the empty streak
and stops the segment at two consecutive empties; a non-empty week is
collected, resets the streak, and stops at the safety-valve bound. -/
def harvestGo (weeks : Nat → List PyDict) (seasontype maxW : Nat) :
    Nat → Nat → List Nat → List TaggedGame → List Nat × List TaggedGame :=
  fun week streak reqs acc =>
    if _hemp : weeks week = [] then
      if _hstop : streak + 1 ≥ 2 then (reqs ++ [week], acc)
      else harvestGo weeks seasontype maxW (week + 1) (streak + 1) (reqs ++ [week]) acc
    else
      if _hmax : week + 1 > maxW then
        (reqs ++ [week], acc ++ tagWeekGames seasontype week (weeks week))
      else
        harvestGo weeks seasontype maxW (week + 1) 0 (reqs ++ [week])
          (acc ++ tagWeekGames seasontype week (weeks week))
termination_by week streak => 2 * (maxW + 1 - week) + (1 - streak)
decreasing_by
  all_goals omega

/-- One season segment of `collect_season`: the loop started at week 1
with an empty streak. -/
def harvest_segment (weeks : Nat → List PyDict) (seasontype maxW : Nat) :
    List Nat × List TaggedGame :=
  harvestGo weeks seasontype maxW 1 0 [] []

/-- `collect_season` (lines 123-167): the regular-season segment
(seasontype 2, safety valve 20) followed by the postseason segment
(seasontype 3, safety valve 6). -/
def collect_season (regWeeks postWeeks : Nat → List PyDict) : List TaggedGame :=
  (harvest_segment regWeeks 2 20).2 ++ (harvest_segment postWeeks 3 6).2

/-- Run analysis of the harvest loop: started at `week` with a legal
streak, if no two consecutive weeks of the next `n` are both empty, weeks
`week+n` and `week+n+1` are both empty, and the nonempty weeks stay under
the safety valve, then the loop requests exactly weeks `week..week+n+1`
and collects exactly the tagged events of weeks `week..week+n-1`. -/
theorem harvestGo_spec (weeks : Nat → List PyDict) (st maxW : Nat) :
    ∀ (n week streak : Nat) (reqs : List Nat) (acc : List TaggedGame),
      (streak = 0 ∨ (streak = 1 ∧ weeks week ≠ [])) →
      (∀ k, week ≤ k → k < week + n → weeks k ≠ [] ∨ weeks (k + 1) ≠ []) →
      weeks (week + n) = [] → weeks (week + n + 1) = [] →
      week + n ≤ maxW →
      harvestGo weeks st maxW week streak reqs acc =
        (reqs ++ List.range' week (n + 2),
         acc ++ (List.range' week n).flatMap (fun k => tagWeekGames st k (weeks k))) := by
  intro n
  induction n with
  | zero =>
    intro week streak reqs acc hs hgap h1 h2 hb
    have hw : weeks week = [] := by simpa using h1
    have hs0 : streak = 0 := by
      rcases hs with h | ⟨_, hne⟩
      · exact h
      · exact absurd hw hne
    subst hs0
    unfold harvestGo
    rw [dif_pos hw, dif_neg (by omega)]
    unfold harvestGo
    rw [dif_pos (by simpa [Nat.add_assoc] using h2), dif_pos (by omega)]
    simp [List.range'_succ]
  | succ n ih =>
    intro week streak reqs acc hs hgap h1 h2 hb
    by_cases hw : weeks week = []
    · have hne1 : weeks (week + 1) ≠ [] := by
        rcases hgap week le_rfl (by omega) with h | h
        · exact absurd hw h
        · exact h
      have hs0 : streak = 0 := by
        rcases hs with h | ⟨_, hne⟩
        · exact h
        · exact absurd hw hne
      subst hs0
      unfold harvestGo
      rw [dif_pos hw, dif_neg (by omega)]
      rw [ih (week + 1) 1 (reqs ++ [week]) acc (Or.inr ⟨rfl, hne1⟩)
        (fun k hk1 hk2 => hgap k (by omega) (by omega))
        (by have he : week + 1 + n = week + (n + 1) := by omega
            rw [he]; exact h1)
        (by have he : week + 1 + n + 1 = week + (n + 1) + 1 := by omega
            rw [he]; exact h2)
        (by omega)]
      simp [List.range'_succ, hw, tagWeekGames]
    · unfold harvestGo
      rw [dif_neg hw, dif_neg (by omega)]
      rw [ih (week + 1) 0 (reqs ++ [week]) (acc ++ tagWeekGames st week (weeks week))
        (Or.inl rfl)
        (fun k hk1 hk2 => hgap k (by omega) (by omega))
        (by have he : week + 1 + n = week + (n + 1) := by omega
            rw [he]; exact h1)
        (by have he : week + 1 + n + 1 = week + (n + 1) + 1 := by omega
            rw [he]; exact h2)
        (by omega)]
      simp [List.range'_succ]

/-- Claim C4: for every season segment whose payloads contain no two
consecutive empty weeks before weeks n+1 and n+2 (both empty, within the
safety valve), the harvester requests exactly weeks 1..n+2 — it stops
issuing requests after the second consecutive empty week, whatever the
payloads of later weeks are — and collects exactly the tagged events of
every non-empty week seen before that point. -/
theorem C4_harvester_stops_after_two_empty (weeks : Nat → List PyDict)
    (st maxW n : Nat)
    (hgap : ∀ k, 1 ≤ k → k < 1 + n → weeks k ≠ [] ∨ weeks (k + 1) ≠ [])
    (h1 : weeks (n + 1) = []) (h2 : weeks (n + 2) = [])
    (hb : n + 1 ≤ maxW) :
    harvest_segment weeks st maxW =
      (List.range' 1 (n + 2),
       (List.range' 1 n).flatMap (fun k => tagWeekGames st k (weeks k))) := by
  unfold harvest_segment
  rw [harvestGo_spec weeks st maxW n 1 0 [] [] (Or.inl rfl) hgap
    (by have he : 1 + n = n + 1 := by omega
        rw [he]; exact h1)
    (by have he : 1 + n + 1 = n + 2 := by omega
        rw [he]; exact h2)
    (by omega)]
  simp

/-- Claim C4 (witness): the synthetic season of the spec — one event in
week 1, empty weeks 2 and 3 — yields exactly one collected game, and the
requests stop at week 3 (the second consecutive empty week), for the
regular-season parameters. -/
theorem C4_harvester_witness :
    harvest_segment (fun k => if k = 1 then [[("id", JVal.str "401")]] else []) 2 20 =
      ([1, 2, 3],
       [⟨parse_event [("id", JVal.str "401")], "REG", "1"⟩]) := by
  rw [C4_harvester_stops_after_two_empty
    (fun k => if k = 1 then [[("id", JVal.str "401")]] else []) 2 20 1
    (fun k hk1 hk2 => by
      have : k = 1 := by omega
      subst this
      left
      decide)
    (by decide) (by decide) (by omega)]
  decide

/-! ## The schedule merger of src/src/db/2025_nfl_schedule_espn.py
(lines 667-761) -/

/-- The items of a JSON list (iterating anything else raises in Python
and is abstracted to the empty list). -/
def jItems : JVal → List JVal
  | .arr l => l
  | _ => []

/-- Python `v.get(k)` with the `None` default, on a possibly-nested value. -/
def jGetD (v : JVal) (k : String) : JVal := (jGet v k).getD .null

/-- `games_differ` (lines 704-728): two games differ when any of the key
fields differ, the team lists have different lengths, or any positionally
paired teams differ on a team field. -/
def games_differ (game1 game2 : PyDict) : Bool :=
  let key_fields := ["name", "short_name", "date", "status", "week", "venue", "city", "state"]
  if key_fields.any (fun f => pyGetD game1 f .null ≠ pyGetD game2 f .null) then true
  else
    let teams1 := jItems (pyGetD game1 "teams" (.arr []))
    let teams2 := jItems (pyGetD game2 "teams" (.arr []))
    if teams1.length ≠ teams2.length then true
    else
      (List.zip teams1 teams2).any (fun p =>
        ["name", "abbreviation", "score", "record"].any (fun f =>
          jGetD p.1 f ≠ jGetD p.2 f))

/-- The truthy-overwrite loop shared by `merge_single_game` and its team
merge: `for key, value in new.items(): if value: merged[key] = value`. -/
def overwriteTruthy (base : PyDict) (new : PyDict) : PyDict :=
  new.foldl (fun m kv => if truthy kv.2 then pySet m kv.1 kv.2 else m) base

/-- The per-team merge of `merge_single_game` (lines 740-756): existing
teams are keyed by their id, and each new team either overwrites a
matching existing team field-by-field (truthy values only) or is taken
as is. -/
def mergeTeams (existingTeams newTeams : List JVal) : List JVal :=
  let exMap : List (Option JVal × JVal) :=
    existingTeams.foldl (fun m t => assocSet m (jGet t "id") t) []
  newTeams.map (fun nt =>
    match assocGet exMap (jGet nt "id") with
    | some et =>
      match et, nt with
      | .obj ef, .obj nf => .obj (overwriteTruthy ef nf)
      | _, _ => nt
    | none => nt)

/-- The special teams handling of `merge_single_game` (lines 740-756):
when the new game has a truthy `teams` list, the merged game's `teams`
value is replaced by the per-team merge of the two lists. -/
def mergeTeamsStep (existing_game new_game merged : PyDict) : PyDict :=
  match pyGet new_game "teams" with
  | some v =>
    if truthy v then
      match v with
      | .arr newTeams =>
        pySet merged "teams"
          (.arr (mergeTeams (jItems (pyGetD existing_game "teams" (.arr []))) newTeams))
      | _ => merged
    else merged
  | none => merged

/-- `merge_single_game` (lines 730-761): copy the existing game, overwrite
every field whose new value is truthy, merge the team lists when the new
game has a truthy `teams` value, and stamp `last_updated` with the
current time. -/
def merge_single_game (now : String) (existing_game new_game : PyDict) : PyDict :=
  pySet (mergeTeamsStep existing_game new_game (overwriteTruthy existing_game new_game))
    "last_updated" (.str now)

/-- The id-keyed lookup dicts of `merge_game_data` (lines 670-671):
`{game['id']: game for game in games if game.get('id')}` — games with a
missing or falsy id are skipped, later games with the same id overwrite
earlier ones, keys keep first-insertion order. -/
def byIdStep (d : List (JVal × PyDict)) (g : PyDict) : List (JVal × PyDict) :=
  match pyGet g "id" with
  | some v => if truthy v then assocSet d v g else d
  | none => d

def buildById (games : List PyDict) : List (JVal × PyDict) :=
  games.foldl byIdStep []

/-- The first loop body of `merge_game_data` (lines 678-692): an existing
id binding is kept unchanged unless the new fetch holds a differing game
under the same id, in which case the two games are merged. -/
def keptMapper (now : String) (new_by_id : List (JVal × PyDict))
    (kv : JVal × PyDict) : PyDict :=
  match assocGet new_by_id kv.1 with
  | some new_game =>
    if games_differ kv.2 new_game then merge_single_game now kv.2 new_game else kv.2
  | none => kv.2

/-- The second loop body of `merge_game_data` (lines 695-699): a new id
binding is appended exactly when its id is absent from the existing set. -/
def appendFilter (existing_by_id : List (JVal × PyDict))
    (kv : JVal × PyDict) : Option PyDict :=
  match assocGet existing_by_id kv.1 with
  | some _ => none
  | none => some kv.2

/-- `merge_game_data` (lines 667-702): walk the existing ids in order,
keeping each existing game unchanged unless the new fetch has a differing
game under the same id (then the two are merged); afterwards append the
new games whose ids are absent from the existing set. -/
def merge_game_data (now : String) (existing_games new_games : List PyDict) :
    List PyDict :=
  let existing_by_id := buildById existing_games
  let new_by_id := buildById new_games
  existing_by_id.map (keptMapper now new_by_id) ++
    new_by_id.filterMap (appendFilter existing_by_id)

/-! ## Association-list lemmas for the merger claims -/

section AssocLemmas

variable {κ α : Type} [DecidableEq κ]

theorem assocGet_set_self (m : List (κ × α)) (k : κ) (v : α) :
    assocGet (assocSet m k v) k = some v := by
  induction m with
  | nil => simp [assocGet, assocSet]
  | cons kv rest ih =>
    obtain ⟨k0, v0⟩ := kv
    by_cases h : k0 = k
    · simp [assocSet, assocGet, h]
    · simp [assocSet, assocGet, h, ih]

theorem assocGet_set_ne (m : List (κ × α)) (k k' : κ) (v : α) (h : k' ≠ k) :
    assocGet (assocSet m k v) k' = assocGet m k' := by
  induction m with
  | nil => simp [assocGet, assocSet, Ne.symm h]
  | cons kv rest ih =>
    obtain ⟨k0, v0⟩ := kv
    by_cases h0 : k0 = k
    · subst h0
      simp [assocSet, assocGet, Ne.symm h]
    · by_cases h1 : k0 = k'
      · simp [assocSet, assocGet, h0, h1, h]
      · simp [assocSet, assocGet, h0, h1, ih]

theorem assocGet_eq_none_iff (m : List (κ × α)) (k : κ) :
    assocGet m k = none ↔ k ∉ m.map Prod.fst := by
  induction m with
  | nil => simp [assocGet]
  | cons kv rest ih =>
    obtain ⟨k0, v0⟩ := kv
    by_cases h : k0 = k
    · simp [assocGet, h]
    · simp [assocGet, h, ih, Ne.symm h]

theorem assocGet_mem (m : List (κ × α)) (k : κ) (v : α) :
    assocGet m k = some v → (k, v) ∈ m := by
  induction m with
  | nil => intro h; simp [assocGet] at h
  | cons kv rest ih =>
    obtain ⟨k0, v0⟩ := kv
    intro h
    by_cases h0 : k0 = k
    · subst h0
      simp [assocGet] at h
      simp [h]
    · simp only [assocGet, h0, if_false] at h
      simp [ih h]

theorem mem_keys_assocSet (m : List (κ × α)) (k k' : κ) (v : α) :
    k' ∈ (assocSet m k v).map Prod.fst ↔ k' ∈ m.map Prod.fst ∨ k' = k := by
  induction m with
  | nil => simp [assocSet]
  | cons kv rest ih =>
    obtain ⟨k0, v0⟩ := kv
    by_cases h : k0 = k
    · subst h
      simp [assocSet]
      tauto
    · simp [assocSet, h, ih]
      tauto

theorem assocSet_keys_nodup (m : List (κ × α)) (k : κ) (v : α)
    (h : (m.map Prod.fst).Nodup) : ((assocSet m k v).map Prod.fst).Nodup := by
  induction m with
  | nil => simp [assocSet]
  | cons kv rest ih =>
    obtain ⟨k0, v0⟩ := kv
    simp only [List.map_cons, List.nodup_cons] at h
    by_cases h0 : k0 = k
    · subst h0
      simp [assocSet, h.1, h.2]
    · simp only [assocSet, h0, if_false, List.map_cons, List.nodup_cons]
      refine ⟨fun hm => ?_, ih h.2⟩
      rcases (mem_keys_assocSet rest k k0 v).mp hm with hh | hh
      · exact h.1 hh
      · exact h0 hh

theorem mem_assocSet (m : List (κ × α)) (k : κ) (v : α) (p : κ × α) :
    p ∈ assocSet m k v → p ∈ m ∨ p = (k, v) := by
  induction m with
  | nil =>
    intro h
    simp only [assocSet, List.mem_singleton] at h
    right; exact h
  | cons kv rest ih =>
    obtain ⟨k0, v0⟩ := kv
    intro h
    by_cases h0 : k0 = k
    · subst h0
      simp only [assocSet, if_true, eq_self_iff_true, List.mem_cons] at h
      rcases h with h | h
      · right; simp [h]
      · left
        exact List.mem_cons_of_mem _ h
    · simp only [assocSet, h0, if_false, List.mem_cons] at h
      rcases h with h | h
      · left
        simp [h]
      · rcases ih h with hh | hh
        · left
          exact List.mem_cons_of_mem _ hh
        · right; exact hh

theorem assocSet_eq_append (m : List (κ × α)) (k : κ) (v : α) :
    k ∉ m.map Prod.fst → assocSet m k v = m ++ [(k, v)] := by
  induction m with
  | nil => simp [assocSet]
  | cons kv rest ih =>
    obtain ⟨k0, v0⟩ := kv
    intro h
    simp only [List.map_cons, List.mem_cons, not_or] at h
    simp [assocSet, Ne.symm h.1, ih h.2]

end AssocLemmas

/-! ## Claim C3: the field-by-field overwrite rule of the merger -/

/-- Lookup after the truthy-overwrite loop: a truthy new value wins, any
other case keeps the existing value. -/
theorem pyGet_overwriteTruthy (new : PyDict) :
    ∀ (existing : PyDict) (k : String), (pyKeys new).Nodup →
      pyGet (overwriteTruthy existing new) k =
        match pyGet new k with
        | some v => if truthy v then some v else pyGet existing k
        | none => pyGet existing k := by
  induction new with
  | nil =>
    intro existing k _
    rfl
  | cons kv rest ih =>
    obtain ⟨k0, v0⟩ := kv
    intro existing k hnod
    simp only [pyKeys, List.map_cons, List.nodup_cons] at hnod
    have hstep : overwriteTruthy existing ((k0, v0) :: rest) =
        overwriteTruthy (if truthy v0 then pySet existing k0 v0 else existing) rest := rfl
    rw [hstep, ih _ k hnod.2]
    by_cases hk : k0 = k
    · subst hk
      have hrest : pyGet rest k0 = none := (assocGet_eq_none_iff rest k0).mpr hnod.1
      have hhead : pyGet ((k0, v0) :: rest) k0 = some v0 := by
        simp [pyGet, assocGet]
      rw [hrest, hhead]
      by_cases ht : truthy v0
      · simp [ht, pyGet, assocGet_set_self]
      · simp [ht]
    · have hhead : pyGet ((k0, v0) :: rest) k = pyGet rest k := by
        simp [pyGet, assocGet, hk]
      have hbase : pyGet (if truthy v0 then pySet existing k0 v0 else existing) k =
          pyGet existing k := by
        by_cases ht : truthy v0
        · simp only [ht, if_true]
          exact assocGet_set_ne existing k0 k v0 (Ne.symm hk)
        · simp [ht]
      rw [hhead, hbase]

/-- The teams step never touches another key. -/
theorem pyGet_mergeTeamsStep (e n m : PyDict) (k : String) (hk : k ≠ "teams") :
    pyGet (mergeTeamsStep e n m) k = pyGet m k := by
  unfold mergeTeamsStep
  split
  · split
    · split
      · exact assocGet_set_ne _ _ _ _ hk
      · rfl
    · rfl
  · rfl

/-- Lookup after the whole single-game merge, for fields outside the two
specially handled keys: a truthy new value wins, anything else keeps the
existing value. -/
theorem pyGet_merge_single_game (now : String) (existing_game new_game : PyDict)
    (k : String) (hnod : (pyKeys new_game).Nodup)
    (ht : k ≠ "teams") (hl : k ≠ "last_updated") :
    pyGet (merge_single_game now existing_game new_game) k =
      match pyGet new_game k with
      | some v => if truthy v then some v else pyGet existing_game k
      | none => pyGet existing_game k := by
  unfold merge_single_game
  have hlast : pyGet (pySet (mergeTeamsStep existing_game new_game
        (overwriteTruthy existing_game new_game)) "last_updated" (JVal.str now)) k =
      pyGet (mergeTeamsStep existing_game new_game
        (overwriteTruthy existing_game new_game)) k :=
    assocGet_set_ne _ _ _ _ hl
  rw [hlast, pyGet_mergeTeamsStep existing_game new_game
    (overwriteTruthy existing_game new_game) k ht]
  exact pyGet_overwriteTruthy new_game existing_game k hnod

/-- Claim C3 (counterexample): the overwrite rule is not literally
field-by-field on the `teams` field — a non-empty new `teams` value does
not overwrite the old value verbatim; the stored value is the per-team
merge, which here keeps the old team record "5-2" that the new fetch
left empty. -/
theorem C3_teams_not_overwritten_verbatim :
    pyGet (merge_single_game "2025-10-12"
      [("id", .str "1"),
        ("teams", .arr [.obj [("id", .str "t"), ("record", .str "5-2")]])]
      [("id", .str "1"),
        ("teams", .arr [.obj [("id", .str "t"), ("record", .str "")]])]) "teams" ≠
      some (.arr [.obj [("id", .str "t"), ("record", .str "")]]) := by decide

/-- Claim C3 (amended): merging an existing and a new record with the same
id is field-by-field — every truthy (non-empty) new value overwrites the
old value of that field, and a falsy (empty) new value never overwrites —
for every field other than the `teams` list, which is instead combined
per matching team by the same truthy-overwrite rule (fourth conjunct),
and the merger's own `last_updated` stamp; in particular the two spec
examples hold: a new score "21" overwrites an empty one, and an empty new
record keeps the old "5-2". -/
theorem C3_merge_field_overwrite :
    (∀ (now : String) (existing_game new_game : PyDict) (k : String),
      (pyKeys new_game).Nodup → k ≠ "teams" → k ≠ "last_updated" →
      pyGet (merge_single_game now existing_game new_game) k =
        match pyGet new_game k with
        | some v => if truthy v then some v else pyGet existing_game k
        | none => pyGet existing_game k) ∧
    pyGet (merge_single_game "2025-10-12"
      [("id", .str "1"), ("name", .str "A"), ("score", .str "")]
      [("id", .str "1"), ("name", .str "A"), ("score", .str "21")]) "score" =
      some (.str "21") ∧
    pyGet (merge_single_game "2025-10-12"
      [("id", .str "1"), ("record", .str "5-2")]
      [("id", .str "1"), ("record", .str "")]) "record" =
      some (.str "5-2") ∧
    (∀ (existing_team new_team : PyDict) (k : String), (pyKeys new_team).Nodup →
      pyGet (overwriteTruthy existing_team new_team) k =
        match pyGet new_team k with
        | some v => if truthy v then some v else pyGet existing_team k
        | none => pyGet existing_team k) := by
  exact ⟨pyGet_merge_single_game, by decide, by decide,
    fun existing_team new_team k hnod => pyGet_overwriteTruthy new_team existing_team k hnod⟩

/-- Claim C3 (witness): the overwrite rule applied at the first spec
example and at the field "score". -/
theorem C3_merge_field_overwrite_witness :
    pyGet (merge_single_game "2025-10-12"
      [("id", JVal.str "1"), ("name", JVal.str "A"), ("score", JVal.str "")]
      [("id", JVal.str "1"), ("name", JVal.str "A"), ("score", JVal.str "21")]) "score" =
      some (JVal.str "21") :=
  (C3_merge_field_overwrite.1 "2025-10-12"
    [("id", JVal.str "1"), ("name", JVal.str "A"), ("score", JVal.str "")]
    [("id", JVal.str "1"), ("name", JVal.str "A"), ("score", JVal.str "21")] "score"
    (by decide) (by decide) (by decide)).trans (by decide)

/-! ## Properties of the id-keyed lookup dicts -/

/-- The second component of a game's id binding, with the `None` default:
the identity key of the merger. -/
def gameId (g : PyDict) : JVal := pyGetD g "id" .null

theorem byIdStep_keys_nodup (d : List (JVal × PyDict)) (g : PyDict)
    (hd : (d.map Prod.fst).Nodup) : ((byIdStep d g).map Prod.fst).Nodup := by
  unfold byIdStep
  rcases pyGet g "id" with _ | v
  · exact hd
  · by_cases ht : truthy v
    · simpa [ht] using assocSet_keys_nodup d v g hd
    · simpa [ht] using hd

theorem buildById_fold_keys_nodup (games : List PyDict) :
    ∀ d : List (JVal × PyDict), (d.map Prod.fst).Nodup →
      ((games.foldl byIdStep d).map Prod.fst).Nodup := by
  induction games with
  | nil => intro d hd; exact hd
  | cons g rest ih =>
    intro d hd
    simp only [List.foldl_cons]
    exact ih _ (byIdStep_keys_nodup d g hd)

theorem buildById_keys_nodup (games : List PyDict) :
    ((buildById games).map Prod.fst).Nodup :=
  buildById_fold_keys_nodup games [] (by simp)

theorem mem_buildById_fold (games : List PyDict) :
    ∀ (d : List (JVal × PyDict)) (p : JVal × PyDict),
      p ∈ games.foldl byIdStep d →
      p ∈ d ∨ (pyGet p.2 "id" = some p.1 ∧ truthy p.1 = true ∧ p.2 ∈ games) := by
  induction games with
  | nil => intro d p hp; exact Or.inl hp
  | cons g rest ih =>
    intro d p hp
    simp only [List.foldl_cons] at hp
    rcases ih (byIdStep d g) p hp with hmem | hrest
    · unfold byIdStep at hmem
      rcases hg : pyGet g "id" with _ | v
      · rw [hg] at hmem
        exact Or.inl hmem
      · rw [hg] at hmem
        by_cases ht : truthy v
        · simp only [ht, if_true] at hmem
          rcases mem_assocSet d v g p hmem with h | h
          · exact Or.inl h
          · right
            subst h
            exact ⟨hg, ht, List.mem_cons_self _ _⟩
        · simp only [ht, if_false] at hmem
          exact Or.inl hmem
    · right
      exact ⟨hrest.1, hrest.2.1, List.mem_cons_of_mem _ hrest.2.2⟩

theorem mem_buildById (games : List PyDict) (p : JVal × PyDict)
    (hp : p ∈ buildById games) :
    pyGet p.2 "id" = some p.1 ∧ truthy p.1 = true ∧ p.2 ∈ games := by
  rcases mem_buildById_fold games [] p hp with h | h
  · simp at h
  · exact h

theorem keys_byIdStep_mono (d : List (JVal × PyDict)) (g : PyDict) (k : JVal)
    (hk : k ∈ d.map Prod.fst) : k ∈ (byIdStep d g).map Prod.fst := by
  unfold byIdStep
  rcases pyGet g "id" with _ | v
  · exact hk
  · by_cases ht : truthy v
    · simpa [ht] using (mem_keys_assocSet d v k g).mpr (Or.inl hk)
    · simpa [ht] using hk

theorem keys_buildById_fold_mono (games : List PyDict) :
    ∀ (d : List (JVal × PyDict)) (k : JVal), k ∈ d.map Prod.fst →
      k ∈ (games.foldl byIdStep d).map Prod.fst := by
  induction games with
  | nil => intro d k hk; exact hk
  | cons g rest ih =>
    intro d k hk
    simp only [List.foldl_cons]
    exact ih _ k (keys_byIdStep_mono d g k hk)

theorem keys_buildById_complete (games : List PyDict) :
    ∀ (d : List (JVal × PyDict)) (g : PyDict) (v : JVal),
      g ∈ games → pyGet g "id" = some v → truthy v →
      v ∈ (games.foldl byIdStep d).map Prod.fst := by
  induction games with
  | nil =>
    intro d g v hg
    cases hg
  | cons g0 rest ih =>
    intro d g v hg hid ht
    simp only [List.foldl_cons]
    rcases List.mem_cons.mp hg with he | hm
    · subst he
      apply keys_buildById_fold_mono rest
      unfold byIdStep
      rw [hid]
      simpa [ht] using (mem_keys_assocSet d v v g).mpr (Or.inr rfl)
    · exact ih (byIdStep d g0) g v hm hid ht

theorem buildById_fold_eq_append (games : List PyDict) :
    ∀ d : List (JVal × PyDict),
      (∀ g ∈ games, ∃ v, pyGet g "id" = some v ∧ truthy v) →
      (games.map gameId).Nodup →
      (∀ g ∈ games, gameId g ∉ d.map Prod.fst) →
      games.foldl byIdStep d = d ++ games.map (fun g => (gameId g, g)) := by
  induction games with
  | nil =>
    intro d _ _ _
    simp
  | cons g rest ih =>
    intro d hid hnod hdisj
    simp only [List.foldl_cons]
    obtain ⟨v, hv, ht⟩ := hid g (List.mem_cons_self _ _)
    have hgid : gameId g = v := by simp [gameId, pyGetD, hv]
    have hstep : byIdStep d g = d ++ [(v, g)] := by
      unfold byIdStep
      rw [hv]
      simp only [ht, if_true]
      refine assocSet_eq_append d v g ?_
      have := hdisj g (List.mem_cons_self _ _)
      rwa [hgid] at this
    simp only [List.map_cons, List.nodup_cons] at hnod
    rw [hstep, ih (d ++ [(v, g)]) (fun g' hg' => hid g' (List.mem_cons_of_mem _ hg'))
      hnod.2
      (fun g' hg' => by
        simp only [List.map_append, List.map_cons, List.map_nil, List.mem_append,
          List.mem_singleton, not_or]
        refine ⟨hdisj g' (List.mem_cons_of_mem _ hg'), fun hc => ?_⟩
        rw [← hgid] at hc
        exact hnod.1 (hc ▸ List.mem_map_of_mem gameId hg'))]
    simp [hgid, List.append_assoc]

theorem buildById_eq_map (games : List PyDict)
    (hid : ∀ g ∈ games, ∃ v, pyGet g "id" = some v ∧ truthy v)
    (hnod : (games.map gameId).Nodup) :
    buildById games = games.map (fun g => (gameId g, g)) := by
  have := buildById_fold_eq_append games [] hid hnod (by simp)
  simpa [buildById] using this

/-! ## Claim C7: merging record sets with disjoint ids -/

theorem filterMap_eq_self {α : Type} (l : List α) (f : α → Option α)
    (h : ∀ a ∈ l, f a = some a) : l.filterMap f = l := by
  induction l with
  | nil => rfl
  | cons a rest ih =>
    rw [List.filterMap_cons, h a (List.mem_cons_self _ _),
      ih (fun a ha => h a (List.mem_cons_of_mem _ ha))]

/-- Claim C7 (counterexample): a game without an id is silently dropped by
the merger, so two record sets with (vacuously) disjoint ids can produce
a merged set smaller than the sum of the two sizes. -/
theorem C7_missing_id_dropped :
    (merge_game_data "" [[("name", JVal.str "A")]] []).length = 0 ∧
    ([[("name", JVal.str "A")]] : List PyDict).length = 1 := by
  constructor <;> rfl

/-- Claim C7 (amended): when every record of both sets carries a truthy
id, ids are unique within each set, and the two sets' ids are disjoint,
the merger returns the existing records unchanged followed by the new
records — so the merged size is the sum of the two sizes and no record is
dropped. -/
theorem C7_merge_disjoint_ids (now : String) (existing_games new_games : List PyDict)
    (hexid : ∀ g ∈ existing_games, ∃ v, pyGet g "id" = some v ∧ truthy v)
    (hnwid : ∀ g ∈ new_games, ∃ v, pyGet g "id" = some v ∧ truthy v)
    (hexn : (existing_games.map gameId).Nodup)
    (hnwn : (new_games.map gameId).Nodup)
    (hdisj : ∀ v, v ∈ existing_games.map gameId → v ∉ new_games.map gameId) :
    merge_game_data now existing_games new_games = existing_games ++ new_games ∧
    (merge_game_data now existing_games new_games).length =
      existing_games.length + new_games.length := by
  have hE : buildById existing_games = existing_games.map (fun g => (gameId g, g)) :=
    buildById_eq_map _ hexid hexn
  have hN : buildById new_games = new_games.map (fun g => (gameId g, g)) :=
    buildById_eq_map _ hnwid hnwn
  have hmain : merge_game_data now existing_games new_games =
      existing_games ++ new_games := by
    simp only [merge_game_data]
    rw [hE, hN]
    congr 1
    · rw [List.map_map]
      conv_rhs => rw [← List.map_id existing_games]
      apply List.map_congr_left
      intro g hg
      have hnone :
          assocGet (new_games.map (fun g => (gameId g, g))) (gameId g) = none := by
        apply (assocGet_eq_none_iff _ _).mpr
        rw [List.map_map]
        intro hc
        apply hdisj (gameId g) (List.mem_map_of_mem gameId hg)
        simpa [List.mem_map] using hc
      simp only [Function.comp_apply, keptMapper, hnone, id_eq]
    · rw [List.filterMap_map]
      apply filterMap_eq_self
      intro g hg
      have hnone :
          assocGet (existing_games.map (fun g => (gameId g, g))) (gameId g) = none := by
        apply (assocGet_eq_none_iff _ _).mpr
        rw [List.map_map]
        intro hc
        apply hdisj (gameId g) _ (List.mem_map_of_mem gameId hg)
        simpa [List.mem_map] using hc
      simp only [Function.comp_apply, appendFilter, hnone]
  exact ⟨hmain, by rw [hmain]; simp⟩

/-- Claim C7 (witness): the amended statement at two singleton record
sets with distinct ids. -/
theorem C7_merge_disjoint_ids_witness :
    merge_game_data "" [[("id", JVal.str "1")]] [[("id", JVal.str "2")]] =
      [[("id", JVal.str "1")], [("id", JVal.str "2")]] ∧
    (merge_game_data "" [[("id", JVal.str "1")]] [[("id", JVal.str "2")]]).length = 2 :=
  (C7_merge_disjoint_ids "" [[("id", JVal.str "1")]] [[("id", JVal.str "2")]]
    (fun g hg => by
      simp only [List.mem_singleton] at hg
      subst hg
      exact ⟨JVal.str "1", rfl, by decide⟩)
    (fun g hg => by
      simp only [List.mem_singleton] at hg
      subst hg
      exact ⟨JVal.str "2", rfl, by decide⟩)
    (by decide) (by decide)
    (fun v hv => by
      simp only [List.map_cons, List.map_nil, List.mem_singleton] at hv
      subst hv
      decide))

/-! ## Claim C9: the merger keys records solely by the id field -/

theorem pyGet_keptMapper (now : String) (N : List (JVal × PyDict)) (kv : JVal × PyDict)
    (hid : pyGet kv.2 "id" = some kv.1)
    (hNfacts : ∀ p ∈ N, pyGet p.2 "id" = some p.1 ∧ truthy p.1 = true)
    (hNkeys : ∀ p ∈ N, (pyKeys p.2).Nodup) :
    pyGet (keptMapper now N kv) "id" = some kv.1 := by
  unfold keptMapper
  rcases hn : assocGet N kv.1 with _ | ng
  · exact hid
  · have hmem := assocGet_mem N kv.1 ng hn
    obtain ⟨hngid, hngt⟩ := hNfacts _ hmem
    by_cases hdf : games_differ kv.2 ng
    · simp only [hdf, if_true]
      rw [pyGet_merge_single_game now kv.2 ng "id" (hNkeys _ hmem) (by decide) (by decide),
        hngid]
      simp [hngt]
    · simpa [hdf] using hid

theorem appendFilter_eq_some (E : List (JVal × PyDict)) (kv : JVal × PyDict)
    (g : PyDict) :
    appendFilter E kv = some g ↔ assocGet E kv.1 = none ∧ g = kv.2 := by
  unfold appendFilter
  rcases hn : assocGet E kv.1 with _ | x <;> simp [eq_comm]

theorem filterMap_appendFilter (N E : List (JVal × PyDict)) :
    N.filterMap (appendFilter E) =
      (N.filter (fun kv => (assocGet E kv.1).isNone)).map Prod.snd := by
  induction N with
  | nil => rfl
  | cons kv rest ih =>
    rw [List.filterMap_cons, List.filter_cons]
    rcases hn : assocGet E kv.1 with _ | x
    · simp [appendFilter, hn, ih]
    · simp [appendFilter, hn, ih]

/-- Claim C9: the merger keys records solely by the id field — every game
of the merged output carries a truthy id; output ids are pairwise
distinct; a truthy id has a game in the output exactly when some input
game (existing or new) carries it; and a game whose id is missing or
falsy appears nowhere in the output. (Input dicts have unique keys, as
Python guarantees.) -/
theorem C9_merger_keys_by_id (now : String) (existing_games new_games : List PyDict)
    (hw : ∀ g ∈ existing_games ++ new_games, (pyKeys g).Nodup) :
    (∀ g ∈ merge_game_data now existing_games new_games,
      ∃ v, pyGet g "id" = some v ∧ truthy v) ∧
    ((merge_game_data now existing_games new_games).map gameId).Nodup ∧
    (∀ v, truthy v →
      ((∃ g ∈ merge_game_data now existing_games new_games, pyGet g "id" = some v) ↔
        (∃ g ∈ existing_games, pyGet g "id" = some v) ∨
          (∃ g ∈ new_games, pyGet g "id" = some v))) ∧
    (∀ g, (match pyGet g "id" with
           | some v => truthy v = false
           | none => True) →
      g ∉ merge_game_data now existing_games new_games) := by
  have hEfacts : ∀ p ∈ buildById existing_games,
      pyGet p.2 "id" = some p.1 ∧ truthy p.1 = true ∧ p.2 ∈ existing_games :=
    fun p hp => mem_buildById _ p hp
  have hNfacts : ∀ p ∈ buildById new_games,
      pyGet p.2 "id" = some p.1 ∧ truthy p.1 = true ∧ p.2 ∈ new_games :=
    fun p hp => mem_buildById _ p hp
  have hKE : ((buildById existing_games).map Prod.fst).Nodup := buildById_keys_nodup _
  have hKN : ((buildById new_games).map Prod.fst).Nodup := buildById_keys_nodup _
  have hfid : ∀ kv ∈ buildById existing_games,
      pyGet (keptMapper now (buildById new_games) kv) "id" = some kv.1 :=
    fun kv hkv =>
      pyGet_keptMapper now _ kv (hEfacts kv hkv).1
        (fun p hp => ⟨(hNfacts p hp).1, (hNfacts p hp).2.1⟩)
        (fun p hp => hw p.2 (List.mem_append.mpr (Or.inr (hNfacts p hp).2.2)))
  have hout : merge_game_data now existing_games new_games =
      (buildById existing_games).map (keptMapper now (buildById new_games)) ++
        (buildById new_games).filterMap (appendFilter (buildById existing_games)) := rfl
  -- (a) every output game has a truthy id
  have ha : ∀ g ∈ merge_game_data now existing_games new_games,
      ∃ v, pyGet g "id" = some v ∧ truthy v := by
    intro g hg
    rw [hout] at hg
    rcases List.mem_append.mp hg with hk | hap
    · obtain ⟨kv, hkv, hfkv⟩ := List.mem_map.mp hk
      exact ⟨kv.1, by rw [← hfkv]; exact hfid kv hkv, (hEfacts kv hkv).2.1⟩
    · obtain ⟨kv, hkv, hkveq⟩ := List.mem_filterMap.mp hap
      obtain ⟨hnone, hge⟩ := (appendFilter_eq_some _ kv g).mp hkveq
      exact ⟨kv.1, hge ▸ (hNfacts kv hkv).1, (hNfacts kv hkv).2.1⟩
  -- (b) output ids are pairwise distinct
  have hb : ((merge_game_data now existing_games new_games).map gameId).Nodup := by
    rw [hout, List.map_append]
    apply List.Nodup.append
    · rw [List.map_map]
      have heq : (buildById existing_games).map
            (gameId ∘ keptMapper now (buildById new_games)) =
          (buildById existing_games).map Prod.fst :=
        List.map_congr_left (fun kv hkv => by
          simp [Function.comp_apply, gameId, pyGetD, hfid kv hkv])
      rw [heq]
      exact hKE
    · rw [filterMap_appendFilter, List.map_map]
      have heq : ((buildById new_games).filter
            (fun kv => (assocGet (buildById existing_games) kv.1).isNone)).map
            (gameId ∘ Prod.snd) =
          ((buildById new_games).filter
            (fun kv => (assocGet (buildById existing_games) kv.1).isNone)).map
            Prod.fst :=
        List.map_congr_left (fun kv hkv => by
          simp [Function.comp_apply, gameId, pyGetD,
            (hNfacts kv (List.mem_of_mem_filter hkv)).1])
      rw [heq]
      exact List.Nodup.sublist (List.Sublist.map Prod.fst (List.filter_sublist _)) hKN
    · intro k hk1 hk2
      obtain ⟨g1, hg1, hg1id⟩ := List.mem_map.mp hk1
      obtain ⟨kv1, hkv1, hfkv1⟩ := List.mem_map.mp hg1
      have hk1E : k ∈ (buildById existing_games).map Prod.fst := by
        have : gameId g1 = kv1.1 := by
          rw [← hfkv1]
          simp [gameId, pyGetD, hfid kv1 hkv1]
        rw [← hg1id, this]
        exact List.mem_map_of_mem Prod.fst hkv1
      obtain ⟨g2, hg2, hg2id⟩ := List.mem_map.mp hk2
      obtain ⟨kv2, hkv2, hkv2eq⟩ := List.mem_filterMap.mp hg2
      obtain ⟨hnone2, hge2⟩ := (appendFilter_eq_some _ kv2 g2).mp hkv2eq
      have : gameId g2 = kv2.1 := by
        rw [hge2]
        simp [gameId, pyGetD, (hNfacts kv2 hkv2).1]
      rw [← this] at hnone2
      rw [hg2id] at hnone2
      exact absurd hk1E ((assocGet_eq_none_iff _ _).mp hnone2)
  -- helper: an id among the existing keys is answered by the kept part
  have hkept_of : ∀ v, v ∈ (buildById existing_games).map Prod.fst →
      ∃ g ∈ merge_game_data now existing_games new_games, pyGet g "id" = some v := by
    intro v hvE
    obtain ⟨kv, hkvE, hkv1⟩ := List.mem_map.mp hvE
    refine ⟨keptMapper now (buildById new_games) kv, ?_, ?_⟩
    · rw [hout]
      exact List.mem_append.mpr (Or.inl (List.mem_map_of_mem _ hkvE))
    · rw [hfid kv hkvE, hkv1]
  -- (c) a truthy id is in the output exactly when it is in some input
  have hc : ∀ v, truthy v →
      ((∃ g ∈ merge_game_data now existing_games new_games, pyGet g "id" = some v) ↔
        (∃ g ∈ existing_games, pyGet g "id" = some v) ∨
          (∃ g ∈ new_games, pyGet g "id" = some v)) := by
    intro v htv
    constructor
    · rintro ⟨g, hg, hgid⟩
      rw [hout] at hg
      rcases List.mem_append.mp hg with hk | hap
      · obtain ⟨kv, hkv, hfkv⟩ := List.mem_map.mp hk
        have : some kv.1 = some v := by
          rw [← hgid, ← hfkv]
          exact (hfid kv hkv).symm
        left
        exact ⟨kv.2, (hEfacts kv hkv).2.2, by
          rw [(hEfacts kv hkv).1, this]⟩
      · obtain ⟨kv, hkv, hkveq⟩ := List.mem_filterMap.mp hap
        obtain ⟨hnone, hge⟩ := (appendFilter_eq_some _ kv g).mp hkveq
        right
        exact ⟨kv.2, (hNfacts kv hkv).2.2, by rw [← hge, hgid]⟩
    · rintro (⟨g, hg, hgid⟩ | ⟨g, hg, hgid⟩)
      · exact hkept_of v (keys_buildById_complete existing_games [] g v hg hgid htv)
      · have hvN : v ∈ (buildById new_games).map Prod.fst :=
          keys_buildById_complete new_games [] g v hg hgid htv
        rcases haE : assocGet (buildById existing_games) v with _ | ex0
        · obtain ⟨kv, hkvN, hkv1⟩ := List.mem_map.mp hvN
          refine ⟨kv.2, ?_, by rw [(hNfacts kv hkvN).1, hkv1]⟩
          rw [hout]
          refine List.mem_append.mpr (Or.inr (List.mem_filterMap.mpr
            ⟨kv, hkvN, (appendFilter_eq_some _ kv kv.2).mpr ⟨by rw [hkv1]; exact haE, rfl⟩⟩))
        · apply hkept_of
          by_contra hnc
          rw [(assocGet_eq_none_iff (buildById existing_games) v).mpr hnc] at haE
          cases haE
  -- (d) games with a missing or falsy id never reach the output
  have hd : ∀ g : PyDict, (match pyGet g "id" with
      | some v => truthy v = false
      | none => True) → g ∉ merge_game_data now existing_games new_games := by
    intro g hcond hmem
    obtain ⟨v, hv, htv⟩ := ha g hmem
    rw [hv] at hcond
    rw [hcond] at htv
    cases htv
  exact ⟨ha, hb, hc, hd⟩

/-- Claim C9 (witness): the statements instantiated at a concrete pair of
inputs — an existing set with one identified game and one id-less game,
and a new set sharing the first id and bringing a second — checking that
the shared id has exactly one output game, the id-less game is dropped,
and output ids are distinct. -/
theorem C9_merger_keys_by_id_witness :
    (∃ g ∈ merge_game_data "2025-10-12"
        [[("id", JVal.str "1"), ("week", JVal.str "3")], [("name", JVal.str "ghost")]]
        [[("id", JVal.str "1"), ("week", JVal.str "4")], [("id", JVal.str "2")]],
      pyGet g "id" = some (JVal.str "2")) ∧
    ((merge_game_data "2025-10-12"
        [[("id", JVal.str "1"), ("week", JVal.str "3")], [("name", JVal.str "ghost")]]
        [[("id", JVal.str "1"), ("week", JVal.str "4")], [("id", JVal.str "2")]]).map
      gameId).Nodup ∧
    [("name", JVal.str "ghost")] ∉ merge_game_data "2025-10-12"
        [[("id", JVal.str "1"), ("week", JVal.str "3")], [("name", JVal.str "ghost")]]
        [[("id", JVal.str "1"), ("week", JVal.str "4")], [("id", JVal.str "2")]] := by
  have h := C9_merger_keys_by_id "2025-10-12"
    [[("id", JVal.str "1"), ("week", JVal.str "3")], [("name", JVal.str "ghost")]]
    [[("id", JVal.str "1"), ("week", JVal.str "4")], [("id", JVal.str "2")]]
    (by intro g hg; fin_cases hg <;> decide)
  refine ⟨?_, h.2.1, ?_⟩
  · exact (h.2.2.1 (JVal.str "2") (by decide)).mpr
      (Or.inr ⟨[("id", JVal.str "2")], by decide, by decide⟩)
  · exact h.2.2.2 [("name", JVal.str "ghost")] (by exact True.intro)

/-! ## The teams dedupe-merge of src/maker.py (lines 185-212) -/

/-- A flattened pandas row after `concat`: a map from column label to
cell, where `none` models a NaN fill for a column the row's source frame
lacked. -/
abbrev Row := List (String × Option String)

/-- Python `str(cell)` for a cell as `Series.get` returns it: a NaN
renders as "nan". -/
def cellStr : Option String → String
  | some s => s
  | none => "nan"

/-- `str(r.get(col, ""))`: the default covers a label absent from the row
entirely. -/
def rowField (r : Row) (col : String) : String :=
  match assocGet r col with
  | some c => cellStr c
  | none => ""

/-- The `base` of `key_row` (line 207): the stripped uid, else the
prefixed id, else the prefixed display name, else empty. -/
def rowBase (r : Row) : String :=
  let uid := pyStrip (rowField r "uid")
  let tid := pyStrip (rowField r "id")
  let name := pyStrip (rowField r "displayName")
  if uid ≠ "" then uid
  else if tid ≠ "" then "id:" ++ tid
  else if name ≠ "" then "name:" ++ name
  else ""

/-- The position-independent dedupe key (league marker plus base), defined
whenever the base is non-empty. -/
def keyNoIdx (r : Row) : String :=
  pyStrip (rowField r "league_marker") ++ ":" ++ rowBase r

/-- `key_row` (lines 202-208): the dedupe key of the row at positional
index `i`, falling back to the row index when the base is empty. -/
def key_row (i : Nat) (r : Row) : String :=
  let league := pyStrip (rowField r "league_marker")
  if rowBase r ≠ "" then league ++ ":" ++ rowBase r
  else league ++ ":row" ++ toString i

/-- `drop_duplicates(subset=["_dedupe_key"])` with the default
keep-first policy over the indexed rows: a row survives exactly when its
key has not been seen earlier. -/
def dropDupFirst : List (Nat × Row) → List String → List Row
  | [], _ => []
  | (i, r) :: rest, seen =>
    if key_row i r ∈ seen then dropDupFirst rest seen
    else r :: dropDupFirst rest (key_row i r :: seen)

/-- `dedupe_merge` of src/maker.py (lines 194-212): an empty new frame
returns the existing one and vice versa; otherwise the existing rows
followed by the new rows are re-indexed and deduplicated by key, first
occurrence kept (the temporary `_dedupe_key` column add/drop of the
source is modelled by computing the key directly). -/
def dedupe_merge (existing new_df : List Row) : List Row :=
  if new_df = [] then existing
  else if existing = [] then new_df
  else dropDupFirst ((existing ++ new_df).enum) []

/-- Proof-side restatement of the keep-first scan for rows whose keys do
not depend on the positional index. -/
def filterByKey : List Row → List String → List Row
  | [], _ => []
  | r :: rest, seen =>
    if keyNoIdx r ∈ seen then filterByKey rest seen
    else r :: filterByKey rest (keyNoIdx r :: seen)

theorem filterByKey_cons (r : Row) (rest : List Row) (seen : List String) :
    filterByKey (r :: rest) seen =
      if keyNoIdx r ∈ seen then filterByKey rest seen
      else r :: filterByKey rest (keyNoIdx r :: seen) := rfl

theorem key_row_of_base (i : Nat) (r : Row) (h : rowBase r ≠ "") :
    key_row i r = keyNoIdx r := by
  unfold key_row keyNoIdx
  rw [if_pos h]

theorem dropDupFirst_eq_filterByKey (l : List Row) :
    ∀ (n : Nat) (seen : List String), (∀ r ∈ l, rowBase r ≠ "") →
      dropDupFirst (List.enumFrom n l) seen = filterByKey l seen := by
  induction l with
  | nil =>
    intro n seen _
    rfl
  | cons r rest ih =>
    intro n seen hb
    have hr := hb r (List.mem_cons_self _ _)
    show dropDupFirst ((n, r) :: List.enumFrom (n + 1) rest) seen = _
    rw [filterByKey_cons]
    show (if key_row n r ∈ seen then dropDupFirst (List.enumFrom (n + 1) rest) seen
      else r :: dropDupFirst (List.enumFrom (n + 1) rest) (key_row n r :: seen)) = _
    rw [key_row_of_base n r hr]
    by_cases hk : keyNoIdx r ∈ seen
    · rw [if_pos hk, if_pos hk]
      exact ih (n + 1) seen (fun r' hr' => hb r' (List.mem_cons_of_mem _ hr'))
    · rw [if_neg hk, if_neg hk,
        ih (n + 1) _ (fun r' hr' => hb r' (List.mem_cons_of_mem _ hr'))]

theorem filterByKey_append_fresh (ex : List Row) :
    ∀ (nw : List Row) (seen : List String), (ex.map keyNoIdx).Nodup →
      (∀ k ∈ seen, k ∉ ex.map keyNoIdx) →
      filterByKey (ex ++ nw) seen =
        ex ++ filterByKey nw ((ex.map keyNoIdx).reverse ++ seen) := by
  induction ex with
  | nil =>
    intro nw seen _ _
    simp
  | cons r rest ih =>
    intro nw seen hnod hfresh
    simp only [List.map_cons, List.nodup_cons] at hnod
    have hr : keyNoIdx r ∉ seen := fun hc => hfresh _ hc (by simp)
    show filterByKey (r :: (rest ++ nw)) seen = _
    rw [filterByKey_cons]
    rw [if_neg hr, ih nw (keyNoIdx r :: seen) hnod.2 (fun k hk => by
      rcases List.mem_cons.mp hk with he | hs
      · subst he
        exact hnod.1
      · intro hc
        exact hfresh k hs (List.mem_cons_of_mem _ hc))]
    simp [List.append_assoc]

theorem filterByKey_skip (l : List Row) :
    ∀ (j : Nat) (seen : List String) (hj : j < l.length),
      (keyNoIdx (l.get ⟨j, hj⟩) ∈ seen ∨
        ∃ i, ∃ hi : i < l.length, i < j ∧
          keyNoIdx (l.get ⟨i, hi⟩) = keyNoIdx (l.get ⟨j, hj⟩)) →
      filterByKey l seen = filterByKey (l.eraseIdx j) seen := by
  induction l with
  | nil =>
    intro j seen hj
    exact absurd hj (by simp)
  | cons r rest ih =>
    intro j seen hj hcov
    cases j with
    | zero =>
      have hks : keyNoIdx r ∈ seen := by
        rcases hcov with h | ⟨i, hi, hlt, _⟩
        · simpa using h
        · omega
      show filterByKey (r :: rest) seen = filterByKey rest seen
      rw [filterByKey_cons, if_pos hks]
    | succ j' =>
      have hj' : j' < rest.length := by simpa using hj
      have hget : (r :: rest).get ⟨j' + 1, hj⟩ = rest.get ⟨j', hj'⟩ := rfl
      show filterByKey (r :: rest) seen = filterByKey (r :: rest.eraseIdx j') seen
      rw [filterByKey_cons, filterByKey_cons]
      by_cases hk : keyNoIdx r ∈ seen
      · rw [if_pos hk, if_pos hk]
        apply ih j' seen hj'
        rcases hcov with h | ⟨i, hi, hlt, heq⟩
        · left
          rw [hget] at h
          exact h
        · cases i with
          | zero =>
            left
            rw [hget] at heq
            rw [← heq]
            exact hk
          | succ i' =>
            right
            have hi' : i' < rest.length := by simpa using hi
            refine ⟨i', hi', by omega, ?_⟩
            rw [hget] at heq
            exact heq
      · rw [if_neg hk, if_neg hk]
        congr 1
        apply ih j' (keyNoIdx r :: seen) hj'
        rcases hcov with h | ⟨i, hi, hlt, heq⟩
        · left
          rw [hget] at h
          exact List.mem_cons_of_mem _ h
        · cases i with
          | zero =>
            left
            rw [hget] at heq
            rw [← heq]
            exact List.mem_cons_self _ _
          | succ i' =>
            right
            have hi' : i' < rest.length := by simpa using hi
            refine ⟨i', hi', by omega, ?_⟩
            rw [hget] at heq
            exact heq

/-- Claim C10: in the teams dedupe-merge, when an existing row and a
freshly fetched row share the same dedupe key (league marker with
uid, else id, else displayName — rows are assumed to have a non-empty
key base, and existing keys are unique as an id-keyed set), the existing
row is kept in its entirety (it appears unchanged in the output) and the
new row is discarded whole: the output is the same as if the new row had
never been fetched, so no field of the existing row is updated. -/
theorem C10_dedupe_existing_wins (existing new_df : List Row) (j : Nat)
    (hbase : ∀ r ∈ existing ++ new_df, rowBase r ≠ "")
    (hexn : (existing.map keyNoIdx).Nodup)
    (hj : j < new_df.length)
    (hcol : ∃ i, ∃ hi : i < existing.length,
      keyNoIdx (existing.get ⟨i, hi⟩) = keyNoIdx (new_df.get ⟨j, hj⟩)) :
    (∀ r ∈ existing, r ∈ dedupe_merge existing new_df) ∧
    dedupe_merge existing new_df = dedupe_merge existing (new_df.eraseIdx j) := by
  obtain ⟨i0, hi0, heq0⟩ := hcol
  have hexne : existing ≠ [] := by
    intro h
    rw [h] at hi0
    simp at hi0
  have hnwne : new_df ≠ [] := by
    intro h
    rw [h] at hj
    simp at hj
  have hA : dedupe_merge existing new_df = filterByKey (existing ++ new_df) [] := by
    unfold dedupe_merge
    rw [if_neg hnwne, if_neg hexne]
    exact dropDupFirst_eq_filterByKey (existing ++ new_df) 0 [] hbase
  have hjg : existing.length + j < (existing ++ new_df).length := by
    simp only [List.length_append]
    omega
  have hig : i0 < (existing ++ new_df).length := by
    simp only [List.length_append]
    omega
  have h1 : (existing ++ new_df).get ⟨existing.length + j, hjg⟩ = new_df.get ⟨j, hj⟩ := by
    simp [List.get_eq_getElem, List.getElem_append_right]
  have h2 : (existing ++ new_df).get ⟨i0, hig⟩ = existing.get ⟨i0, hi0⟩ := by
    simp [List.get_eq_getElem, List.getElem_append_left, hi0]
  have hskip : filterByKey (existing ++ new_df) [] =
      filterByKey (existing ++ new_df.eraseIdx j) [] := by
    have hs := filterByKey_skip (existing ++ new_df) (existing.length + j) [] hjg
      (Or.inr ⟨i0, hig, by omega, by rw [h1, h2, heq0]⟩)
    rw [hs, List.eraseIdx_append_of_length_le (by omega)]
    have harith : existing.length + j - existing.length = j := by omega
    rw [harith]
  have hmem : ∀ r ∈ existing, r ∈ dedupe_merge existing new_df := by
    intro r hr
    rw [hA, filterByKey_append_fresh existing new_df [] hexn (by simp)]
    exact List.mem_append_left _ hr
  refine ⟨hmem, ?_⟩
  rw [hA, hskip]
  by_cases he : new_df.eraseIdx j = []
  · rw [he]
    show filterByKey (existing ++ []) [] = dedupe_merge existing []
    rw [filterByKey_append_fresh existing [] [] hexn (by simp)]
    unfold dedupe_merge
    rw [if_pos rfl]
    simp [filterByKey]
  · unfold dedupe_merge
    rw [if_neg he, if_neg hexne]
    refine (dropDupFirst_eq_filterByKey (existing ++ new_df.eraseIdx j) 0 []
      (fun r hr => ?_)).symm
    rcases List.mem_append.mp hr with h | h
    · exact hbase r (List.mem_append_left _ h)
    · exact hbase r (List.mem_append_right _ ((List.eraseIdx_sublist _ _).subset h))

/-- Claim C10 (witness): a one-row existing frame and a one-row new fetch
with the same league and uid — the merge keeps the existing row (with its
old field values) and equals the merge with the new row removed. -/
theorem C10_dedupe_existing_wins_witness :
    [("league_marker", some "NFL"), ("uid", some "u1"), ("displayName", some "Old")] ∈
      dedupe_merge
        [[("league_marker", some "NFL"), ("uid", some "u1"), ("displayName", some "Old")]]
        [[("league_marker", some "NFL"), ("uid", some "u1"), ("displayName", some "New")]] ∧
    dedupe_merge
        [[("league_marker", some "NFL"), ("uid", some "u1"), ("displayName", some "Old")]]
        [[("league_marker", some "NFL"), ("uid", some "u1"), ("displayName", some "New")]] =
      [[("league_marker", some "NFL"), ("uid", some "u1"), ("displayName", some "Old")]] := by
  have h := C10_dedupe_existing_wins
    [[("league_marker", some "NFL"), ("uid", some "u1"), ("displayName", some "Old")]]
    [[("league_marker", some "NFL"), ("uid", some "u1"), ("displayName", some "New")]] 0
    (by intro r hr; fin_cases hr <;> decide)
    (by decide) (by decide)
    ⟨0, by decide, by decide⟩
  exact ⟨h.1 _ (List.mem_cons_self _ _), h.2.trans (by decide)⟩
